import Mathlib

/-!
Verification development for the `frdocs` repository: a shallow embedding of
the identifier extraction / standardization / resolution pipeline and of the
structural parsers (`src/preprocessing/parsing.py`, `src/parse/parsers.py`,
`src/preprocessing/compile_parsed.py`), together with theorems settling the
specification's claims about them.

Strings are modelled as Lean `String` / `List Char`; Python `None` as
`Option.none`; a Python exception escaping a `try` block as `Except.error`.
-/

namespace Frdocs

/-- The Python regex character class `[0-9]` (code points 48-57). -/
def isDigit09 (c : Char) : Bool := 48 ≤ c.toNat && c.toNat ≤ 57

/-- `re.sub(r'[^0-9]+$','',d)`: delete the maximal trailing run of characters
outside `[0-9]`.  (In Python, `$` may also match just before a final newline,
but a final newline is itself a non-digit, so the deleted suffix — the longest
all-non-digit suffix — is the same.) -/
def strip_trailing_nonnumeric (s : String) : String :=
  ⟨(s.data.reverse.dropWhile (fun c => !isDigit09 c)).reverse⟩

/-- `d.replace('E','')`: delete every occurrence of the letter `E`. -/
def remove_E (s : String) : String :=
  ⟨s.data.filter (fun c => c != 'E')⟩

/-- The body of the `try:` block of `standardize_frdoc_number`
(`src/preprocessing/parsing.py` lines 572-593; identical in
`src/parse/parsers.py` and `src/preprocessing/compile_parsed.py`).
`Except.error v` models an exception escaping the block while the local
variable `d` holds `v`.

The block runs, in order:
  - `d = re.sub(r'[^0-9]+$','',d)`  (strip trailing non-digits, rebinding `d`);
  - `d = d.replace('E','')`          (delete `E`, rebinding `d`);
  - `parts = d.rsplit('-')`          (no effect on the result, see below);
  - `for i in range(len(parts)-1) in parts[:-1]:` — Python parses this as
    iterating over the value of the expression
    `range(len(parts)-1) in parts[:-1]`, which is the boolean `False`
    (a `range` object equals no string), and iterating over a `bool` raises
    `TypeError` unconditionally, before any loop body or any later statement
    (the year-stripping rewrites and `parts[-1] = str(int(parts[-1]))`)
    can run.
So for every string input the block raises with `d` bound to the input with
its trailing non-digits stripped and every `E` removed. -/
def standardize_body (d : String) : Except String String :=
  let d1 := strip_trailing_nonnumeric d
  let d2 := remove_E d1
  Except.error d2

/-- `standardize_frdoc_number` (`src/preprocessing/parsing.py` lines 553-595):
the `try:` block above wrapped in `except Exception: return d`, which returns
the current binding of the local variable `d`. -/
def standardize_frdoc_number (d : String) : String :=
  match standardize_body d with
  | Except.ok r => r
  | Except.error cur => cur

theorem dropWhile_dropWhile (p : Char → Bool) (l : List Char) :
    (l.dropWhile p).dropWhile p = l.dropWhile p := by
  induction l with
  | nil => rfl
  | cons a l ih =>
    by_cases h : p a
    · simp [List.dropWhile_cons, h, ih]
    · simp [List.dropWhile_cons, h]

theorem head_dropWhile_false (p : Char → Bool) (l : List Char) (c : Char)
    (h : (l.dropWhile p).head? = some c) : p c = false := by
  induction l with
  | nil => simp [List.dropWhile] at h
  | cons a l ih =>
    by_cases ha : p a
    · exact ih (by simpa [List.dropWhile_cons, ha] using h)
    · simp [List.dropWhile_cons, ha] at h
      subst h
      simpa using ha

theorem filter_idem (q : Char → Bool) (l : List Char) :
    (l.filter q).filter q = l.filter q := by
  induction l with
  | nil => rfl
  | cons a l ih =>
    by_cases h : q a
    · simp [List.filter_cons, h, ih]
    · simp [List.filter_cons, h, ih]

/-- After dropping the leading `p`-run, filtering with a predicate `q` that
holds wherever `p` fails leaves a list whose head still falsifies `p`, so a
second `dropWhile p` is the identity on it. -/
theorem dropWhile_filter_dropWhile (p q : Char → Bool)
    (hpq : ∀ c, p c = false → q c = true) (l : List Char) :
    (((l.dropWhile p).filter q).dropWhile p) = (l.dropWhile p).filter q := by
  cases hD : l.dropWhile p with
  | nil => simp
  | cons c t =>
    have hc : p c = false := head_dropWhile_false p l c (by simp [hD])
    have hq : q c = true := hpq c hc
    simp [List.filter_cons, hq, List.dropWhile_cons, hc]

theorem standardize_eval (d : String) :
    standardize_frdoc_number d = remove_E (strip_trailing_nonnumeric d) := rfl

/-- Characters inside `[0-9]` are not the letter `E`. -/
theorem digit_ne_E (c : Char) (hc : (!isDigit09 c) = false) : (c != 'E') = true := by
  have hdig : isDigit09 c = true := by
    cases h : isDigit09 c
    · rw [h] at hc; simp at hc
    · rfl
  simp only [isDigit09, Bool.and_eq_true, decide_eq_true_eq] at hdig
  simp only [bne_iff_ne, ne_eq]
  intro hEq
  subst hEq
  have h69 : ('E' : Char).toNat = 69 := rfl
  omega

theorem strip_after_strip_remove (l : List Char) :
    ((((((l.reverse.dropWhile (fun c => !isDigit09 c)).reverse).filter
      (fun c => c != 'E')).reverse).dropWhile (fun c => !isDigit09 c)).reverse) =
    (((l.reverse.dropWhile (fun c => !isDigit09 c)).reverse).filter
      (fun c => c != 'E')) := by
  rw [List.filter_reverse, List.reverse_reverse,
    dropWhile_filter_dropWhile (fun c => !isDigit09 c) (fun c => c != 'E')
      digit_ne_E]

/-- Claim C7 (confirmed): standardization is idempotent.  The function's
actual behaviour is `remove_E ∘ strip_trailing_nonnumeric` (the year and
leading-zero steps are dead code, see `standardize_body`); stripping leaves a
string that is empty or ends in a digit, removing `E` preserves that, so a
second pass changes nothing. -/
theorem C7_standardize_idempotent (x : String) :
    standardize_frdoc_number (standardize_frdoc_number x) =
      standardize_frdoc_number x := by
  obtain ⟨l⟩ := x
  rw [standardize_eval, standardize_eval]
  show String.mk _ = String.mk _
  simp only [remove_E, strip_trailing_nonnumeric, String.data]
  rw [strip_after_strip_remove, filter_idem]

/-- Claim C1 (code_bug): evaluation of `standardize_frdoc_number` at the
specification's equivalence examples.  The function's docstring promises the
year-digit and leading-zero rules, but the malformed loop
`for i in range(len(parts)-1) in parts[:-1]` raises before they run, so the
three representations of the same document number standardize to three
distinct strings. -/
theorem C1_standardize_examples_eval :
    standardize_frdoc_number "2005-0034" = "2005-0034" ∧
    standardize_frdoc_number "05-0034" = "05-0034" ∧
    standardize_frdoc_number "2005-34" = "2005-34" ∧
    standardize_frdoc_number "2005-0034" ≠ standardize_frdoc_number "05-0034" ∧
    standardize_frdoc_number "05-0034" ≠ standardize_frdoc_number "2005-34" := by
  refine ⟨rfl, rfl, rfl, ?_, ?_⟩ <;> decide

/-- Claim C6, counterexample: on input `"E5-12ABC"` the `try:` body raises
(with the working variable holding `"5-12"`), and the function returns that
partially transformed string, not the original input. -/
theorem C6_fallback_not_original :
    standardize_body "E5-12ABC" = Except.error "5-12" ∧
    standardize_frdoc_number "E5-12ABC" ≠ "E5-12ABC" := by
  constructor
  · rfl
  · decide

/-! ## Identifier extraction (`extract_frdoc_number`)

`src/preprocessing/parsing.py` lines 484-550 (the variant in
`src/parse/compile_parsed.py` adds a year-guessing step that only runs when
the rebuilt number has no dash; the claims' input families all contain a dash,
where the two variants agree).

The Python regexes are embedded as deterministic scanners.  The regex engine's
backtracking is resolved by hand; every place where a greedy sub-pattern could
in principle give characters back is either encoded as an explicit fallback
branch or discharged in a comment explaining why no shorter match can lead to
an overall success. -/

/-- One ASCII-range character of the Python regex class `\s`
(space, TAB, LF, VT, FF, CR, the file/group/record/unit separators 28-31,
NEL 133 and NBSP 160).  Python's `regex` module also accepts the rarer
Unicode White_Space code points (U+1680, U+2000-U+200A, ...); no string in
any theorem below contains one of those, so they are not modelled. -/
def pySpace (c : Char) : Bool :=
  c.toNat = 32 || (9 ≤ c.toNat && c.toNat ≤ 13) || (28 ≤ c.toNat && c.toNat ≤ 31)
    || c.toNat = 133 || c.toNat = 160

/-- The regex class `[CRX]` under `re.IGNORECASE`. -/
def isCRX (c : Char) : Bool :=
  c.toNat = 67 || c.toNat = 82 || c.toNat = 88 ||
  c.toNat = 99 || c.toNat = 114 || c.toNat = 120

/-- The regex class `[EZ]` under `re.IGNORECASE`. -/
def isEZ (c : Char) : Bool :=
  c.toNat = 69 || c.toNat = 90 || c.toNat = 101 || c.toNat = 122

/-- The regex class `[\s-]`. -/
def isSpaceDash (c : Char) : Bool := pySpace c || c == '-'

/-- Python `str.upper` on one character, for the ASCII range (the string it is
applied to in `extract_frdoc_number` has just been transliterated to ASCII by
`unidecode`). -/
def pyUpperChar (c : Char) : Char :=
  if 97 ≤ c.toNat && c.toNat ≤ 122 then Char.ofNat (c.toNat - 32) else c

/-- Model of the external `unidecode` transliteration of one character: it
maps characters independently and is the identity on ASCII.  Its table for
non-ASCII characters is not modelled (no theorem below depends on the image
of a non-ASCII character; such characters are conservatively dropped here, as
`unidecode` itself does for characters it cannot transliterate). -/
def unidecodeChar (c : Char) : List Char :=
  if c.toNat ≤ 127 then [c] else []

/-- `unidecode(s)`: per-character transliteration. -/
def unidecode (l : List Char) : List Char :=
  (l.map unidecodeChar).flatten

/-- `(?P<part2>[EZ]?\d+)`: optional `E`/`Z`, then a maximal nonempty digit
run.  Returns the captured text and the remainder.  (If the leading `E`/`Z`
is not followed by a digit, the engine backtracks `[EZ]?` to the empty match,
and `\d+` then fails on the `E`/`Z` itself, so the whole group fails.) -/
def matchPart2 (cs : List Char) : Option (List Char × List Char) :=
  match cs with
  | [] => none
  | c :: rest =>
    if isEZ c then
      let ds := rest.takeWhile isDigit09
      if ds.isEmpty then none
      else some (c :: ds, rest.dropWhile isDigit09)
    else
      let ds := cs.takeWhile isDigit09
      if ds.isEmpty then none
      else some (ds, cs.dropWhile isDigit09)

/-- Consume at most one `\s` character (`\s?`, greedy). -/
def optWs (cs : List Char) : Nat × List Char :=
  match cs with
  | c :: rest => if pySpace c then (1, rest) else (0, c :: rest)
  | [] => (0, [])

/-- `(\s?-+\s?(?P<part3>\d*))?` with nothing after it (case-1 pattern):
returns `(consumed length, part3 capture, remainder)` when the group matches.
If after the optional space there is no dash, backtracking the `\s?` cannot
help (the given-back character is a space, not a dash), so the group is
skipped. -/
def matchGroup3 (cs : List Char) : Option (Nat × List Char × List Char) :=
  let (w1, r1) := optWs cs
  match r1 with
  | '-' :: _ =>
    let ds := r1.takeWhile (fun c => c == '-')
    let r2 := r1.dropWhile (fun c => c == '-')
    let (w2, r3) := optWs r2
    let p3 := r3.takeWhile isDigit09
    let r4 := r3.dropWhile isDigit09
    some (w1 + ds.length + w2 + p3.length, p3, r4)
  | _ => none

/-- The three capture groups of `fr_pattern` plus the total consumed length. -/
structure FrParts where
  part1 : Option (List Char)
  part2 : List Char
  part3 : Option (List Char)
  len : Nat

/-- `fr_pattern` at a fixed position, with the optional part-1 group skipped:
`(?P<part2>[EZ]?\d+)(\s?-+\s?(?P<part3>\d*))?`. -/
def matchFrNoPrefix (cs : List Char) : Option FrParts :=
  match matchPart2 cs with
  | some (p2, r) =>
    match matchGroup3 r with
    | some (g3, p3, _) => some ⟨none, p2, some p3, p2.length + g3⟩
    | none => some ⟨none, p2, none, p2.length⟩
  | none => none

/-- The whole `fr_pattern` at a fixed position.  The part-1 branch
`((?P<part1>[CRX]\d*)[\s-]*)?` is tried first (greedy option).  With the
maximal digit run and maximal `[\s-]*` run, `part2` is attempted after the
separator; if it fails there, giving separator characters back lands `part2`
on a space or dash where `[EZ]?\d+` cannot match, so the only live
backtracking is `\d*` giving back its last digit, which `\d+` then consumes
as `part2` (with `[\s-]*` matching nothing in between, and shorter `\d*`
choices reaching `part2` at the same position with the same continuation).
If the part-1 branch fails entirely the group is skipped. -/
def matchFrAt (cs : List Char) : Option FrParts :=
  match cs with
  | [] => none
  | c0 :: rest =>
    if isCRX c0 then
      let digits := rest.takeWhile isDigit09
      let afterD := rest.dropWhile isDigit09
      let sep := afterD.takeWhile isSpaceDash
      let afterS := afterD.dropWhile isSpaceDash
      match matchPart2 afterS with
      | some (p2, _r) =>
        match matchGroup3 _r with
        | some (g3, p3, _) =>
          some ⟨some (c0 :: digits), p2, some p3,
                1 + digits.length + sep.length + p2.length + g3⟩
        | none =>
          some ⟨some (c0 :: digits), p2, none,
                1 + digits.length + sep.length + p2.length⟩
      | none =>
        if digits.isEmpty then matchFrNoPrefix (c0 :: rest)
        else
          let k := digits.length - 1
          match matchGroup3 afterD with
          | some (g3, p3, _) =>
            some ⟨some (c0 :: digits.take k), digits.drop k, some p3, 1 + k + 1 + g3⟩
          | none =>
            some ⟨some (c0 :: digits.take k), digits.drop k, none, 1 + k + 1⟩
    else matchFrNoPrefix (c0 :: rest)

/-- A case-1 match: the length of group 0 and the `fr_pattern` captures. -/
structure Case1Match where
  g0len : Nat
  fr : FrParts

/-- The case-1 pattern `FR\sDoc\.?\s*{fr_pattern}` (IGNORECASE) anchored at
the start of `cs`.  `\.?` is deterministic: if the character is a dot and the
continuation after consuming it fails, the continuation after not consuming
it starts `\s*` on the dot, which matches zero characters, and `fr_pattern`
then fails on the dot (not `[CRX]`, `[EZ]` or a digit); so consuming the dot
when present loses nothing.  `\s*` is likewise deterministic: giving back
space characters restarts `fr_pattern` on a space, where it fails. -/
def matchCase1At (cs : List Char) : Option Case1Match :=
  match cs with
  | f :: r :: sp :: d :: o :: c :: rest =>
    if (f == 'F' || f == 'f') && (r == 'R' || r == 'r') && pySpace sp &&
       (d == 'D' || d == 'd') && (o == 'O' || o == 'o') && (c == 'C' || c == 'c') then
      let (dot, r1) : Nat × List Char :=
        match rest with
        | '.' :: t => (1, t)
        | _ => (0, rest)
      let ws := r1.takeWhile pySpace
      let r2 := r1.dropWhile pySpace
      match matchFrAt r2 with
      | some fr => some ⟨6 + dot + ws.length + fr.len, fr⟩
      | none => none
    else none
  | _ => none

/-- `re.search` for the case-1 pattern: leftmost matching position. -/
def searchCase1 : List Char → Option Case1Match
  | [] => none
  | c :: rest =>
    match matchCase1At (c :: rest) with
    | some m => some m
    | none => searchCase1 rest

/-- The suffix `;?\s*Fil` of the case-2 pattern, anchored at the start of
`cs`.  `;?` and `\s*` are deterministic: giving back the `;` restarts `\s*`
on the `;` (zero spaces) and the literal `F` fails on it; giving back spaces
restarts the literal `F` on a space. -/
def matchFilSuffix (cs : List Char) : Bool :=
  let r1 := match cs with
    | ';' :: t => t
    | _ => cs
  match r1.dropWhile pySpace with
  | f :: i :: l :: _ =>
    (f == 'F' || f == 'f') && (i == 'I' || i == 'i') && (l == 'L' || l == 'l')
  | _ => false

/-- `(\s?-+\s?(?P<part3>\d*))?;?\s*Fil` — the case-2 continuation after
`part2`.  Returns the `part3` capture (`none` when the optional group is
skipped).  Backtracking inside the group: giving back `part3` digits or
dashes restarts the suffix on a digit or dash, where `;?\s*Fil` cannot reach
its literal `F`; the one live giveback is the second `\s?`, after which
`\d*` matches zero digits (the next character is the given-back space) and
the suffix is retried there, its `\s*` consuming that space.  Giving back the
first `\s?` would require a dash where the given-back space is.  If the group
fails or no variant of it lets the suffix match, the group is skipped and the
suffix is tried directly. -/
def contCase2 (cs : List Char) : Option (Option (List Char)) :=
  let viaG3 : Option (Option (List Char)) :=
    let (_w1, r1) := optWs cs
    match r1 with
    | '-' :: _ =>
      let r2 := r1.dropWhile (fun c => c == '-')
      let (w2, r3) := optWs r2
      let p3 := r3.takeWhile isDigit09
      let r4 := r3.dropWhile isDigit09
      if matchFilSuffix r4 then some (some p3)
      else if w2 = 1 && matchFilSuffix r2 then some (some [])
      else none
    | _ => none
  match viaG3 with
  | some p3 => some p3
  | none => if matchFilSuffix cs then some none else none

/-- The captures of a case-2 match (no group-0 length is needed: the
`len(m.group(0)) < 3` test is only applied to case-1 matches). -/
def ExtractedParts : Type :=
  Option (List Char) × List Char × Option (List Char)

/-- Case-2 `fr_pattern` continuation with the part-1 group skipped. -/
def matchFrCase2NoPrefix (cs : List Char) : Option ExtractedParts :=
  match matchPart2 cs with
  | some (p2, r) =>
    match contCase2 r with
    | some p3 => some (none, p2, p3)
    | none => none
  | none => none

/-- `fr_pattern;?\s*Fil` at a fixed position (the body of the case-2 pattern
after its leading `[.\s]`).  Same part-1 backtracking structure as
`matchFrAt`; additionally, when the continuation (`contCase2`) fails after a
successful `part2`, giving back `part2` digits restarts the continuation on a
digit, where neither `\s?-+` nor `;?\s*Fil` can match, so only the part-1
`\d*` giveback is live, and all its shorter choices reach the continuation at
the same position. -/
def matchFrCase2At (cs : List Char) : Option ExtractedParts :=
  match cs with
  | [] => none
  | c0 :: rest =>
    if isCRX c0 then
      let digits := rest.takeWhile isDigit09
      let afterD := rest.dropWhile isDigit09
      let afterS := afterD.dropWhile isSpaceDash
      let v1 : Option ExtractedParts :=
        match matchPart2 afterS with
        | some (p2, r) =>
          match contCase2 r with
          | some p3 => some (some (c0 :: digits), p2, p3)
          | none => none
        | none => none
      match v1 with
      | some m => some m
      | none =>
        if digits.isEmpty then matchFrCase2NoPrefix (c0 :: rest)
        else
          let k := digits.length - 1
          match contCase2 afterD with
          | some p3 => some (some (c0 :: digits.take k), digits.drop k, p3)
          | none => matchFrCase2NoPrefix (c0 :: rest)
    else matchFrCase2NoPrefix (c0 :: rest)

/-- The case-2 pattern `[.\s]{fr_pattern};?\s*Fil` anchored at `cs`. -/
def matchCase2At (cs : List Char) : Option ExtractedParts :=
  match cs with
  | [] => none
  | c :: rest => if c == '.' || pySpace c then matchFrCase2At rest else none

/-- `re.search` for the case-2 pattern: leftmost matching position. -/
def searchCase2 : List Char → Option ExtractedParts
  | [] => none
  | c :: rest =>
    match matchCase2At (c :: rest) with
    | some m => some m
    | none => searchCase2 rest

/-- Rebuild the document number from the captures
(`d = m.group('part2')`, prepend `part1 + '-'` when part 1 is truthy, append
`'-' + part3` when part 3 is truthy; a captured but empty `part3` is falsy in
Python, like an unmatched one). -/
def rebuild (p1 : Option (List Char)) (p2 : List Char)
    (p3 : Option (List Char)) : List Char :=
  let d1 := match p1 with
    | some l => if l.isEmpty then p2 else l ++ '-' :: p2
    | none => p2
  match p3 with
  | some l => if l.isEmpty then d1 else d1 ++ '-' :: l
  | none => d1

/-- `extract_frdoc_number` (`src/preprocessing/parsing.py` lines 484-550):
transliterate to ASCII, search the case-1 pattern; if it fails (or its
group 0 is shorter than 3 characters — impossible here, group 0 contains
`FR\sDoc`, but the test is in the source) search the case-2 pattern; on a
match rebuild the number from the three captures, transliterate and
uppercase; otherwise warn and return `None`. -/
def extract_frdoc_number (s : String) : Option String :=
  let cs := unidecode s.data
  let m : Option ExtractedParts :=
    match searchCase1 cs with
    | some r =>
      if r.g0len < 3 then searchCase2 cs
      else some (r.fr.part1, r.fr.part2, r.fr.part3)
    | none => searchCase2 cs
  match m with
  | some (p1, p2, p3) => some ⟨(unidecode (rebuild p1 p2 p3)).map pyUpperChar⟩
  | none => none

/-- Claim C6 as amended (proved): `standardize_frdoc_number` never raises —
it is total — but when the `try:` body raises (which happens on every input,
at the malformed loop), the `except` clause returns the current value of the
rebound working variable: the input with trailing non-digit characters
stripped and every letter `E` removed, not necessarily the original string. -/
theorem C6_exception_fallback (d : String) :
    standardize_body d =
      Except.error (remove_E (strip_trailing_nonnumeric d)) ∧
    standardize_frdoc_number d = remove_E (strip_trailing_nonnumeric d) :=
  ⟨rfl, rfl⟩

/-! ### Facts about the character classes and list scanners used by C4 -/

theorem char_beq_false (c d : Char) (h : c.toNat ≠ d.toNat) : (c == d) = false := by
  cases hb : c == d
  · rfl
  · exact absurd (congrArg Char.toNat (eq_of_beq hb)) h

theorem digit_toNat (c : Char) (h : isDigit09 c = true) :
    48 ≤ c.toNat ∧ c.toNat ≤ 57 := by
  simpa [isDigit09] using h

theorem digit_not_space (c : Char) (h : isDigit09 c = true) : pySpace c = false := by
  have hb := digit_toNat c h
  cases hs : pySpace c
  · rfl
  · simp only [pySpace, Bool.or_eq_true, Bool.and_eq_true, decide_eq_true_eq] at hs
    omega

theorem digit_not_crx (c : Char) (h : isDigit09 c = true) : isCRX c = false := by
  have hb := digit_toNat c h
  cases hs : isCRX c
  · rfl
  · simp only [isCRX, Bool.or_eq_true, decide_eq_true_eq] at hs
    omega

theorem digit_not_ez (c : Char) (h : isDigit09 c = true) : isEZ c = false := by
  have hb := digit_toNat c h
  cases hs : isEZ c
  · rfl
  · simp only [isEZ, Bool.or_eq_true, decide_eq_true_eq] at hs
    omega

theorem digit_not_dash (c : Char) (h : isDigit09 c = true) : (c == '-') = false := by
  have hb := digit_toNat c h
  have h45 : ('-' : Char).toNat = 45 := rfl
  exact char_beq_false c '-' (by omega)

theorem digit_ascii (c : Char) (h : isDigit09 c = true) : c.toNat ≤ 127 := by
  have hb := digit_toNat c h
  omega

theorem digit_upper (c : Char) (h : isDigit09 c = true) : pyUpperChar c = c := by
  have hb := digit_toNat c h
  unfold pyUpperChar
  rw [if_neg]
  simp only [Bool.and_eq_true, decide_eq_true_eq, not_and]
  omega

theorem takeWhile_all_append (p : Char → Bool) (Y z : List Char)
    (hY : ∀ c ∈ Y, p c = true) :
    (Y ++ z).takeWhile p = Y ++ z.takeWhile p := by
  induction Y with
  | nil => simp
  | cons a Y ih =>
    have ha := hY a (by simp)
    simp only [List.cons_append, List.takeWhile_cons, ha, if_true]
    rw [ih (fun c hc => hY c (by simp [hc]))]

theorem dropWhile_all_append (p : Char → Bool) (Y z : List Char)
    (hY : ∀ c ∈ Y, p c = true) :
    (Y ++ z).dropWhile p = z.dropWhile p := by
  induction Y with
  | nil => simp
  | cons a Y ih =>
    have ha := hY a (by simp)
    simp only [List.cons_append, List.dropWhile_cons, ha, if_true]
    exact ih (fun c hc => hY c (by simp [hc]))

theorem unidecode_append (a b : List Char) :
    unidecode (a ++ b) = unidecode a ++ unidecode b := by
  simp [unidecode]

theorem unidecode_cons (c : Char) (l : List Char) (h : c.toNat ≤ 127) :
    unidecode (c :: l) = c :: unidecode l := by
  simp [unidecode, unidecodeChar, h]

theorem unidecode_ascii (l : List Char) (h : ∀ c ∈ l, c.toNat ≤ 127) :
    unidecode l = l := by
  induction l with
  | nil => rfl
  | cons a l ih =>
    rw [unidecode_cons a l (h a (by simp))]
    rw [ih (fun c hc => h c (by simp [hc]))]

theorem map_id_of_mem (f : Char → Char) (l : List Char)
    (h : ∀ c ∈ l, f c = c) : l.map f = l := by
  induction l with
  | nil => rfl
  | cons a l ih =>
    simp only [List.map_cons, h a (by simp)]
    rw [ih (fun c hc => h c (by simp [hc]))]

/-! ### C4: the extraction round trip on well-formed citations -/

theorem matchPart2_digits (Y w : List Char) (hY0 : Y ≠ [])
    (hY : ∀ c ∈ Y, isDigit09 c = true) :
    matchPart2 (Y ++ '-' :: w) = some (Y, '-' :: w) := by
  obtain ⟨y, Y', rfl⟩ : ∃ y Y', Y = y :: Y' := by
    cases Y with
    | nil => exact absurd rfl hY0
    | cons y Y' => exact ⟨y, Y', rfl⟩
  have hy := hY y (by simp)
  have htk : ((y :: Y') ++ '-' :: w).takeWhile isDigit09 = y :: Y' := by
    rw [takeWhile_all_append _ _ _ hY]
    simp [List.takeWhile_cons, show isDigit09 '-' = false from rfl]
  have hdr : ((y :: Y') ++ '-' :: w).dropWhile isDigit09 = '-' :: w := by
    rw [dropWhile_all_append _ _ _ hY]
    simp [List.dropWhile_cons, show isDigit09 '-' = false from rfl]
  simp only [List.cons_append] at htk hdr
  simp [matchPart2, digit_not_ez y hy, htk, hdr]

theorem matchGroup3_dash_digits (N t : List Char) (hN0 : N ≠ [])
    (hN : ∀ c ∈ N, isDigit09 c = true) :
    matchGroup3 ('-' :: (N ++ ' ' :: t)) = some (1 + N.length, N, ' ' :: t) := by
  obtain ⟨n, N', rfl⟩ : ∃ n N', N = n :: N' := by
    cases N with
    | nil => exact absurd rfl hN0
    | cons n N' => exact ⟨n, N', rfl⟩
  have hn := hN n (by simp)
  have htkd : ((n :: N') ++ ' ' :: t).takeWhile (fun c => c == '-') = [] := by
    simp [List.takeWhile_cons, digit_not_dash n hn]
  have hdrd : ((n :: N') ++ ' ' :: t).dropWhile (fun c => c == '-') =
      (n :: N') ++ ' ' :: t := by
    simp [List.dropWhile_cons, digit_not_dash n hn]
  have htk : ((n :: N') ++ ' ' :: t).takeWhile isDigit09 = n :: N' := by
    rw [takeWhile_all_append _ _ _ hN]
    simp [List.takeWhile_cons, show isDigit09 ' ' = false from rfl]
  have hdr : ((n :: N') ++ ' ' :: t).dropWhile isDigit09 = ' ' :: t := by
    rw [dropWhile_all_append _ _ _ hN]
    simp [List.dropWhile_cons, show isDigit09 ' ' = false from rfl]
  simp only [List.cons_append] at htkd hdrd htk hdr
  simp [matchGroup3, optWs, show pySpace '-' = false from rfl,
    digit_not_space n hn, List.takeWhile_cons, List.dropWhile_cons,
    htkd, hdrd, htk, hdr]

theorem matchFrAt_YN (Y N t : List Char) (hY0 : Y ≠ [])
    (hY : ∀ c ∈ Y, isDigit09 c = true) (hN0 : N ≠ [])
    (hN : ∀ c ∈ N, isDigit09 c = true) :
    matchFrAt (Y ++ '-' :: (N ++ ' ' :: t)) =
      some ⟨none, Y, some N, Y.length + (1 + N.length)⟩ := by
  obtain ⟨y, Y', rfl⟩ : ∃ y Y', Y = y :: Y' := by
    cases Y with
    | nil => exact absurd rfl hY0
    | cons y Y' => exact ⟨y, Y', rfl⟩
  have hy := hY y (by simp)
  have hp2 := matchPart2_digits (y :: Y') (N ++ ' ' :: t) hY0 hY
  have hg3 := matchGroup3_dash_digits N t hN0 hN
  simp only [List.cons_append] at hp2 hg3 ⊢
  simp [matchFrAt, matchFrNoPrefix, digit_not_crx y hy, hp2, hg3]

theorem matchCase1At_YN (Y N t : List Char) (hY0 : Y ≠ [])
    (hY : ∀ c ∈ Y, isDigit09 c = true) (hN0 : N ≠ [])
    (hN : ∀ c ∈ N, isDigit09 c = true) :
    matchCase1At ('F' :: 'R' :: ' ' :: 'D' :: 'o' :: 'c' :: '.' :: ' ' ::
        (Y ++ '-' :: (N ++ ' ' :: t))) =
      some ⟨8 + (Y.length + (1 + N.length)),
            ⟨none, Y, some N, Y.length + (1 + N.length)⟩⟩ := by
  obtain ⟨y, Y', rfl⟩ : ∃ y Y', Y = y :: Y' := by
    cases Y with
    | nil => exact absurd rfl hY0
    | cons y Y' => exact ⟨y, Y', rfl⟩
  have hy := hY y (by simp)
  have hfr := matchFrAt_YN (y :: Y') N t hY0 hY hN0 hN
  have hws : (' ' :: ((y :: Y') ++ '-' :: (N ++ ' ' :: t))).takeWhile pySpace =
      [' '] := by
    simp [List.takeWhile_cons, show pySpace ' ' = true from rfl,
      digit_not_space y hy]
  have hdrws : (' ' :: ((y :: Y') ++ '-' :: (N ++ ' ' :: t))).dropWhile pySpace =
      (y :: Y') ++ '-' :: (N ++ ' ' :: t) := by
    simp [List.dropWhile_cons, show pySpace ' ' = true from rfl,
      digit_not_space y hy]
  simp only [List.cons_append] at hfr hws hdrws ⊢
  simp [matchCase1At, show pySpace ' ' = true from rfl, hws, hdrws, hfr]

theorem searchCase1_cons (c : Char) (l : List Char) :
    searchCase1 (c :: l) =
      match matchCase1At (c :: l) with
      | some m => some m
      | none => searchCase1 l := rfl

theorem searchCase1_cons_none (c : Char) (l : List Char)
    (h : matchCase1At (c :: l) = none) :
    searchCase1 (c :: l) = searchCase1 l := by
  rw [searchCase1_cons, h]

/-- When the case-1 search succeeds with a group 0 of length at least 3, the
extractor returns the rebuilt, transliterated, uppercased captures. -/
theorem extract_of_case1 (s : String) (r : Case1Match)
    (h : searchCase1 (unidecode s.data) = some r) (hlen : ¬ r.g0len < 3) :
    extract_frdoc_number s =
      some ⟨(unidecode (rebuild r.fr.part1 r.fr.part2 r.fr.part3)).map
        pyUpperChar⟩ := by
  simp only [extract_frdoc_number]
  rw [h]
  show (match (if r.g0len < 3 then searchCase2 (unidecode s.data)
      else some (r.fr.part1, r.fr.part2, r.fr.part3)) with
    | some (p1, p2, p3) =>
        some (String.mk ((unidecode (rebuild p1 p2 p3)).map pyUpperChar))
    | none => none) = _
  rw [if_neg hlen]

/-- Claim C4 (confirmed): for every citation string
`"[FR Doc. Y-N Filed <rest>"` with `Y`, `N` nonempty digit strings,
`extract_frdoc_number` succeeds and returns exactly `Y ++ "-" ++ N`
(the capture groups rejoined with a dash, transliterated, uppercased —
transliteration and uppercasing fix digits and the dash). -/
theorem C4_extract_round_trip (Y N rest : String) (hY0 : Y.data ≠ [])
    (hY : ∀ c ∈ Y.data, isDigit09 c = true) (hN0 : N.data ≠ [])
    (hN : ∀ c ∈ N.data, isDigit09 c = true) :
    extract_frdoc_number ("[FR Doc. " ++ Y ++ "-" ++ N ++ " Filed " ++ rest) =
      some (Y ++ "-" ++ N) := by
  have hdata : ("[FR Doc. " ++ Y ++ "-" ++ N ++ " Filed " ++ rest).data =
      '[' :: 'F' :: 'R' :: ' ' :: 'D' :: 'o' :: 'c' :: '.' :: ' ' ::
        (Y.data ++ '-' :: (N.data ++
          (' ' :: 'F' :: 'i' :: 'l' :: 'e' :: 'd' :: ' ' :: rest.data))) := by
    simp [String.data_append]
  have hu : unidecode ("[FR Doc. " ++ Y ++ "-" ++ N ++ " Filed " ++ rest).data =
      '[' :: 'F' :: 'R' :: ' ' :: 'D' :: 'o' :: 'c' :: '.' :: ' ' ::
        (Y.data ++ '-' :: (N.data ++
          (' ' :: 'F' :: 'i' :: 'l' :: 'e' :: 'd' :: ' ' ::
            unidecode rest.data))) := by
    rw [hdata]
    have h9 : ∀ l : List Char,
        unidecode ('[' :: 'F' :: 'R' :: ' ' :: 'D' :: 'o' :: 'c' :: '.' :: ' ' :: l) =
        '[' :: 'F' :: 'R' :: ' ' :: 'D' :: 'o' :: 'c' :: '.' :: ' ' ::
          unidecode l := fun l => rfl
    rw [h9, unidecode_append]
    rw [unidecode_ascii Y.data (fun c hc => digit_ascii c (hY c hc))]
    have hcons : ∀ l : List Char, unidecode ('-' :: l) = '-' :: unidecode l :=
      fun l => rfl
    rw [hcons, unidecode_append]
    rw [unidecode_ascii N.data (fun c hc => digit_ascii c (hN c hc))]
    have h7 : ∀ l : List Char,
        unidecode (' ' :: 'F' :: 'i' :: 'l' :: 'e' :: 'd' :: ' ' :: l) =
        ' ' :: 'F' :: 'i' :: 'l' :: 'e' :: 'd' :: ' ' :: unidecode l :=
      fun l => rfl
    rw [h7]
  have hc1 := matchCase1At_YN Y.data N.data
    ('F' :: 'i' :: 'l' :: 'e' :: 'd' :: ' ' :: unidecode rest.data)
    hY0 hY hN0 hN
  have hsearch : searchCase1
      (unidecode ("[FR Doc. " ++ Y ++ "-" ++ N ++ " Filed " ++ rest).data) =
      some ⟨8 + (Y.data.length + (1 + N.data.length)),
            ⟨none, Y.data, some N.data,
             Y.data.length + (1 + N.data.length)⟩⟩ := by
    rw [hu, searchCase1_cons]
    have hskip : matchCase1At ('[' :: 'F' :: 'R' :: ' ' :: 'D' :: 'o' :: 'c' ::
        '.' :: ' ' :: (Y.data ++ '-' :: (N.data ++
          (' ' :: 'F' :: 'i' :: 'l' :: 'e' :: 'd' :: ' ' ::
            unidecode rest.data)))) = none := rfl
    rw [hskip, searchCase1_cons, hc1]
  rw [extract_of_case1 _ _ hsearch (by simp only []; omega)]
  have hNe : N.data.isEmpty = false := by
    cases hd : N.data with
    | nil => exact absurd hd hN0
    | cons n N' => rfl
  have hreb : rebuild none Y.data (some N.data) = Y.data ++ '-' :: N.data := by
    simp [rebuild, hNe]
  rw [hreb]
  have hAscii : ∀ c ∈ Y.data ++ '-' :: N.data, c.toNat ≤ 127 := by
    intro c hc
    rcases List.mem_append.mp hc with h | h
    · exact digit_ascii c (hY c h)
    · rcases List.mem_cons.mp h with h | h
      · subst h; decide
      · exact digit_ascii c (hN c h)
  rw [unidecode_ascii _ hAscii]
  have hUp : ∀ c ∈ Y.data ++ '-' :: N.data, pyUpperChar c = c := by
    intro c hc
    rcases List.mem_append.mp hc with h | h
    · exact digit_upper c (hY c h)
    · rcases List.mem_cons.mp h with h | h
      · subst h; rfl
      · exact digit_upper c (hN c h)
  rw [map_id_of_mem _ _ hUp]
  have hYN : (Y ++ "-" ++ N).data = Y.data ++ '-' :: N.data := by
    simp [String.data_append]
  conv_rhs => rw [show (Y ++ "-" ++ N) =
    String.mk ((Y ++ "-" ++ N).data) from rfl, hYN]

/-- Claim C4, witness: the docstring's standard example, with
`Y = "12"`, `N = "1149"`. -/
theorem C4_extract_round_trip_witness :
    ("12" : String).data ≠ [] ∧ (∀ c ∈ ("12" : String).data, isDigit09 c = true) ∧
    ("1149" : String).data ≠ [] ∧
    (∀ c ∈ ("1149" : String).data, isDigit09 c = true) ∧
    extract_frdoc_number
        ("[FR Doc. " ++ "12" ++ "-" ++ "1149" ++ " Filed " ++ "1-18-12; 8:45 am]") =
      some ("12" ++ "-" ++ "1149") :=
  ⟨by decide, by decide, by decide, by decide,
   C4_extract_round_trip "12" "1149" "1-18-12; 8:45 am]"
     (by decide) (by decide) (by decide) (by decide)⟩

/-! ## Identifier resolution (`FrdocResolver`)

`src/preprocessing/parsing.py` lines 598-647 (identical in
`src/preprocessing/compile_parsed.py` lines 140-189).  The metadata table
`info_df` is modelled as a list of `InfoEntry` rows; `doc_info` as a
`DocInfo`. -/

/-- One row of `info_df` (fields requested by `FrdocResolver.__init__`):
`frdoc_number, publication_date, volume, start_page, end_page`. -/
structure InfoEntry where
  frdoc_number : String
  publication_date : String
  volume : Int
  start_page : Int
  end_page : Int
deriving DecidableEq, Repr

/-- The identity fields of one document from `iter_docs`
(`src/preprocessing/compile_parsed.py`). -/
structure DocInfo where
  frdoc_string : Option String
  publication_date : String
  volume : Int
  start_page : Int
  end_page : Int
deriving DecidableEq, Repr

/-- Python `str.strip()` is truthy: the string has a non-whitespace
character. -/
def hasNonSpace (s : String) : Bool := s.data.any (fun c => !pySpace c)

/-- `self.all_frdocs = set(d for d in ... if d.strip())`: the document numbers
whose stripped form is nonempty.  (Membership tests below use the list; the
Python set only affects lookup cost.) -/
def all_frdocs (reg : List InfoEntry) : List String :=
  (reg.map (fun e => e.frdoc_number)).filter hasNonSpace

/-- `candidates_df = info_df[info_df['standardized_frdoc'] == standardized]`.
When the extracted number is `None`, `standardize_frdoc_number(None)` raises
`TypeError` at its first `re.sub` (before rebinding `d`) and the `except`
returns `None`; a pandas comparison of a column with `None` is `False` on
every row, so the candidate set is empty. -/
def stdCandidates (reg : List InfoEntry) (f? : Option String) : List InfoEntry :=
  match f? with
  | some f => reg.filter (fun e =>
      standardize_frdoc_number e.frdoc_number == standardize_frdoc_number f)
  | none => []

/-- The structural (FR-citation) filter: rows agreeing with the document on
`publication_date`, `volume`, `start_page` and `end_page`. -/
def structCandidates (reg : List InfoEntry) (doc : DocInfo) : List InfoEntry :=
  reg.filter (fun e =>
    e.publication_date == doc.publication_date && e.volume == doc.volume &&
    e.start_page == doc.start_page && e.end_page == doc.end_page)

/-- `re.sub(r'\s','',s)`: delete every whitespace character. -/
def pyStripSpace (s : String) : String :=
  ⟨s.data.filter (fun c => !pySpace c)⟩

/-- Python `needle in hay` on strings: substring containment. -/
def containsSubstr (hay needle : List Char) : Bool :=
  hay.tails.any (fun t => needle.isPrefixOf t)

/-- The substring refinement: keep candidates whose whitespace-stripped
number occurs in the whitespace-stripped citation string. -/
def refineCandidates (cands : List InfoEntry) (s : String) : List InfoEntry :=
  cands.filter (fun e =>
    containsSubstr (pyStripSpace s).data (pyStripSpace e.frdoc_number).data)

/-- Truthiness of `doc_info['frdoc_string']` (`None` and `""` are falsy). -/
def truthyStr : Option String → Bool
  | some s => !s.isEmpty
  | none => false

/-- Stages 3 and 4 of `FrdocResolver.__call__`: the structural match, then —
when a citation string is present — the substring refinement of the
structural candidate set; `none` models the warning-and-`return None` exit. -/
def structuralPhase (reg : List InfoEntry) (doc : DocInfo) : Option String :=
  let cands := structCandidates reg doc
  match cands with
  | [e] => some e.frdoc_number
  | _ =>
    if truthyStr doc.frdoc_string then
      match doc.frdoc_string with
      | some s =>
        (match refineCandidates cands s with
         | [e] => some e.frdoc_number
         | _ => none)
      | none => none
    else none

/-- Stages 1 and 2 of `FrdocResolver.__call__`, applied to the extracted
number: the exact lookup in `all_frdocs` (returning the extracted number
itself), then the unique standardized match (returning the matching entry's
number); `none` models falling through to the structural phase. -/
def exactOrStd (reg : List InfoEntry) (f? : Option String) : Option String :=
  match f? with
  | some f =>
    if (all_frdocs reg).contains f then some f
    else
      (match stdCandidates reg (some f) with
       | [e] => some e.frdoc_number
       | _ => none)
  | none =>
    (match stdCandidates reg none with
     | [e] => some e.frdoc_number
     | _ => none)

/-- `FrdocResolver.__call__` (`src/preprocessing/parsing.py` lines 606-647):
when the citation string is truthy, try the exact lookup of the extracted
number, then the unique standardized match; otherwise (or if both fail) fall
through to the structural phase. -/
def FrdocResolver_call (reg : List InfoEntry) (doc : DocInfo) : Option String :=
  let stage12 : Option String :=
    if truthyStr doc.frdoc_string then
      match doc.frdoc_string with
      | some s => exactOrStd reg (extract_frdoc_number s)
      | none => none
    else none
  match stage12 with
  | some r => some r
  | none => structuralPhase reg doc

/-- Claim C2 (confirmed): the resolution cascade runs in a fixed order with
early exit.  With a truthy citation string whose extraction yields `f`:
(1) if `f` is exactly among the Registry's ids it is returned at once;
(2) otherwise, if exactly one entry shares its standardized form, that
entry's id is returned; (3) otherwise resolution proceeds to the structural
phase (structural match, then substring refinement). -/
theorem C2_resolver_cascade (reg : List InfoEntry) (doc : DocInfo)
    (s f : String) (h1 : doc.frdoc_string = some s) (h2 : s.isEmpty = false)
    (hf : extract_frdoc_number s = some f) :
    ((all_frdocs reg).contains f = true →
      FrdocResolver_call reg doc = some f) ∧
    (∀ e, (all_frdocs reg).contains f = false →
      stdCandidates reg (some f) = [e] →
      FrdocResolver_call reg doc = some e.frdoc_number) ∧
    ((all_frdocs reg).contains f = false →
      (stdCandidates reg (some f)).length ≠ 1 →
      FrdocResolver_call reg doc = structuralPhase reg doc) := by
  unfold FrdocResolver_call
  rw [h1]
  simp only [truthyStr, h2, Bool.not_false, if_true]
  rw [hf]
  refine ⟨?_, ?_, ?_⟩
  · intro hc
    have hc' : f ∈ all_frdocs reg := by simpa using hc
    simp [exactOrStd, hc']
  · intro e hc hstd
    have hc' : f ∉ all_frdocs reg := by simpa using hc
    simp [exactOrStd, hc', hstd]
  · intro hc hlen
    have hc' : f ∉ all_frdocs reg := by simpa using hc
    cases hS : stdCandidates reg (some f) with
    | nil => simp [exactOrStd, hc', hS]
    | cons a t =>
      cases t with
      | nil => exact absurd (by rw [hS]; rfl) hlen
      | cons b t' => simp [exactOrStd, hc', hS]

/-- Claim C3 (confirmed): with two or more structurally tied Registry
entries, an extracted identifier that matches no id exactly and no id by
standardized form, and a citation containing no candidate's
whitespace-stripped id, resolution returns the unresolved signal `none` and
never picks a tied candidate. -/
theorem C3_resolver_tie_unresolved (reg : List InfoEntry) (doc : DocInfo)
    (hmulti : 2 ≤ (structCandidates reg doc).length)
    (hext : ∀ s, doc.frdoc_string = some s → s.isEmpty = false →
      ∀ f, extract_frdoc_number s = some f →
        (all_frdocs reg).contains f = false ∧ stdCandidates reg (some f) = [])
    (hsub : ∀ s, doc.frdoc_string = some s → ∀ e ∈ structCandidates reg doc,
      containsSubstr (pyStripSpace s).data (pyStripSpace e.frdoc_number).data =
        false) :
    FrdocResolver_call reg doc = none := by
  obtain ⟨a, b, t, hS⟩ : ∃ a b t, structCandidates reg doc = a :: b :: t := by
    cases hS : structCandidates reg doc with
    | nil => rw [hS] at hmulti; simp at hmulti
    | cons a t =>
      cases t with
      | nil => rw [hS] at hmulti; simp at hmulti
      | cons b t' => exact ⟨a, b, t', rfl⟩
  have hphase : structuralPhase reg doc = none := by
    unfold structuralPhase
    rw [hS]
    cases hfs : doc.frdoc_string with
    | none => rfl
    | some s =>
      cases hse : s.isEmpty with
      | true => simp [truthyStr, hse]
      | false =>
        have href : refineCandidates (a :: b :: t) s = [] := by
          unfold refineCandidates
          rw [List.filter_eq_nil_iff]
          intro e he
          rw [hsub s hfs e (hS ▸ he)]
          simp
        simp [truthyStr, hse, href]
  unfold FrdocResolver_call
  cases hfs : doc.frdoc_string with
  | none => simpa [truthyStr] using hphase
  | some s =>
    cases hse : s.isEmpty with
    | true => simpa [truthyStr, hse] using hphase
    | false =>
      cases hex : extract_frdoc_number s with
      | none => simpa [truthyStr, hse, hex, exactOrStd, stdCandidates] using hphase
      | some f =>
        obtain ⟨hcf, hstd⟩ := hext s hfs hse f hex
        have hcf' : f ∉ all_frdocs reg := by simpa using hcf
        simpa [truthyStr, hse, hex, exactOrStd, hcf', hstd] using hphase

/-- A demonstration Registry entry (the specification's example). -/
def entryA : InfoEntry := ⟨"12-1149", "2012-01-19", 77, 100, 102⟩

/-- A second entry with the same structural fields as `entryA`. -/
def entryB : InfoEntry := ⟨"12-1150", "2012-01-19", 77, 100, 102⟩

/-- A filing whose citation names `entryA`. -/
def demoDoc : DocInfo :=
  ⟨some "[FR Doc. 12-1149 Filed 1-18-12; 8:45 am]", "2012-01-19", 77, 100, 102⟩

/-- A filing with the same structural fields but a corrupted citation. -/
def demoDocBad : DocInfo :=
  ⟨some "[FR Doc. 99-9999 Filed 1-18-12; 8:45 am]", "2012-01-19", 77, 100, 102⟩

/-- Claim C2, witness: the exact-match stage returns the extracted number. -/
theorem C2_resolver_cascade_witness :
    FrdocResolver_call [entryA] demoDoc = some "12-1149" :=
  (C2_resolver_cascade [entryA] demoDoc "[FR Doc. 12-1149 Filed 1-18-12; 8:45 am]"
    "12-1149" rfl rfl (by decide)).1 (by decide)

/-- Claim C3, witness: two tied entries, a citation matching neither. -/
theorem C3_resolver_tie_unresolved_witness :
    FrdocResolver_call [entryA, entryB] demoDocBad = none := by
  apply C3_resolver_tie_unresolved [entryA, entryB] demoDocBad (by decide)
  · intro s hs hne f hf
    obtain rfl : "[FR Doc. 99-9999 Filed 1-18-12; 8:45 am]" = s :=
      Option.some.inj hs
    obtain rfl : "99-9999" = f := Option.some.inj hf
    exact ⟨by decide, by decide⟩
  · intro s hs e he
    obtain rfl : "[FR Doc. 99-9999 Filed 1-18-12; 8:45 am]" = s :=
      Option.some.inj hs
    have he' : e ∈ [entryA, entryB] := he
    rcases List.mem_cons.mp he' with rfl | he''
    · decide
    · rcases List.mem_cons.mp he'' with rfl | he'''
      · decide
      · simp at he'''

/-! ## The XML document model

An `lxml` element: tag, attributes, `text` (the text before the first child;
`None` when absent), `tail` (the text after the element's closing tag; `None`
when absent), children.  Emitted records and the walk are modelled from
`parse_reg_xml_tree` (`src/preprocessing/parsing.py` lines 206-298); the
fields not examined by any claim (`cfr_title`/`cfr_part` values, `footnote`,
`footnotes`, `cfr_section`, `section_subject`) are not carried in the record,
and the `part_cfr_map` pre-pass that only feeds those fields is not
modelled. -/

inductive Elem where
  | mk (tag : String) (attrs : List (String × String)) (text : Option String)
       (tail : Option String) (children : List Elem)

def Elem.tag : Elem → String
  | .mk t _ _ _ _ => t

def Elem.attrs : Elem → List (String × String)
  | .mk _ a _ _ _ => a

def Elem.text : Elem → Option String
  | .mk _ _ x _ _ => x

def Elem.tail : Elem → Option String
  | .mk _ _ _ x _ => x

def Elem.children : Elem → List Elem
  | .mk _ _ _ _ c => c

/-- `re.match(r'\n\s*', s)` is a match exactly when `s` starts with a
newline (the `\s*` part matches the empty string). -/
def startsNl (s : String) : Bool :=
  match s.data with
  | '\n' :: _ => true
  | _ => false

mutual

/-- `get_element_text` (`src/preprocessing/parsing.py` lines 10-46):
`head` is `element.text or ''`, blanked for footnote numbers (`SU`) or when
it starts with a newline (formatting whitespace); the children's texts are
concatenated (joining with `''` and skipping falsy strings is plain
concatenation); `tail` is blanked when it starts with a newline — but when
`element.tail` is `None`, `re.match(r'\n\s*', None)` raises `TypeError`,
modelled as `Except.error`. -/
def get_element_text : Elem → Except Unit String
  | Elem.mk tag _ text tail children => do
    let head0 := text.getD ""
    let head := if tag == "SU" then "" else if startsNl head0 then "" else head0
    let child ← childrenText children
    match tail with
    | none => Except.error ()
    | some tl => Except.ok (head ++ child ++ (if startsNl tl then "" else tl))

def childrenText : List Elem → Except Unit String
  | [] => Except.ok ""
  | e :: es => do
    let s ← get_element_text e
    let r ← childrenText es
    Except.ok (s ++ r)

end

mutual

/-- `''.join(element.itertext())`: the element's `text`, then every child's
itertext followed by that child's `tail`, concatenated (`None` entries are
skipped by `itertext`). -/
def itertextAll : Elem → String
  | Elem.mk _ _ text _ children => text.getD "" ++ itertextChildren children

def itertextChildren : List Elem → String
  | [] => ""
  | e :: es => itertextAll e ++ e.tail.getD "" ++ itertextChildren es

end

mutual

/-- The chunks yielded by `element.itertext()` (each non-`None` text node in
document order), for `' '.join(...)`. -/
def itertextChunks : Elem → List String
  | Elem.mk _ _ text _ children =>
    (match text with
     | some t => [t]
     | none => []) ++ itertextChunksList children

def itertextChunksList : List Elem → List String
  | [] => []
  | e :: es =>
    itertextChunks e ++
    (match e.tail with
     | some t => [t]
     | none => []) ++ itertextChunksList es

end

/-- The citation-string handling of `iter_docs`
(`src/preprocessing/compile_parsed.py` lines 228-240):
`doc_element.xpath('./FRDOC')` selects the direct children tagged `FRDOC`;
with zero or several of them the filing's `frdoc_string` is `None`
(after a warning), otherwise it is `' '.join(frdoc_elements[0].itertext())`. -/
def frdoc_string_of_doc (e : Elem) : Option String :=
  match e.children.filter (fun c => c.tag == "FRDOC") with
  | [f] => some (String.intercalate " " (itertextChunks f))
  | _ => none

/-- Claim C9 (confirmed): with zero or more than one `FRDOC` child the
citation string is treated as absent, the exact/standardized/substring
stages are skipped, and resolution returns an id exactly when exactly one
Registry entry matches all four structural fields. -/
theorem C9_missing_citation_structural (reg : List InfoEntry) (e : Elem)
    (pd : String) (vol sp ep : Int)
    (h : (e.children.filter (fun c => c.tag == "FRDOC")).length ≠ 1) :
    FrdocResolver_call reg ⟨frdoc_string_of_doc e, pd, vol, sp, ep⟩ =
      (match structCandidates reg ⟨frdoc_string_of_doc e, pd, vol, sp, ep⟩ with
       | [u] => some u.frdoc_number
       | _ => none) := by
  have hnone : frdoc_string_of_doc e = none := by
    unfold frdoc_string_of_doc
    cases hf : e.children.filter (fun c => c.tag == "FRDOC") with
    | nil => rfl
    | cons a t =>
      cases t with
      | nil => rw [hf] at h; simp at h
      | cons b t' => rfl
  rw [hnone]
  unfold FrdocResolver_call structuralPhase
  cases hS : structCandidates reg ⟨none, pd, vol, sp, ep⟩ with
  | nil => simp [truthyStr, hS]
  | cons a t =>
    cases t with
    | nil => simp [truthyStr, hS]
    | cons b t' => simp [truthyStr, hS]

/-- An element with no `FRDOC` child. -/
def demoElemNoFrdoc : Elem := Elem.mk "RULE" [] none none []

/-- Claim C9, witness: a filing with no `FRDOC` element resolves through the
structural stage to the unique structural match. -/
theorem C9_missing_citation_structural_witness :
    FrdocResolver_call [entryA]
      ⟨frdoc_string_of_doc demoElemNoFrdoc, "2012-01-19", 77, 100, 102⟩ =
      some "12-1149" := by
  rw [C9_missing_citation_structural [entryA] demoElemNoFrdoc
    "2012-01-19" 77 100 102 (by decide)]
  decide

/-! ## Paragraph splitting and numbering extraction (per node) -/

/-- The regex class `[^\S\n]`: whitespace other than newline. -/
def horizWs (c : Char) : Bool := pySpace c && c != '\n'

/-- `re.finditer(r'(\n|.+\n?)([^\S\n]+)?', text)` — the paragraph split
(`src/preprocessing/parsing.py` line 274), written with a fuel parameter so
that it is structurally recursive (each match consumes at least one
character, so `text.length` fuel always suffices; see `splitParas` and
`splitParasF_congr`).  The matches tile the string: at a newline the first
alternative takes it; otherwise `.+` greedily takes the rest of the line and
`\n?` its newline; `([^\S\n]+)?` then greedily attaches the following
non-newline whitespace to the same match (assigning separating whitespace to
the previous paragraph).  No backtracking arises: the pattern has no
constraint after the greedy parts. -/
def splitParasF : Nat → List Char → List (List Char)
  | _, [] => []
  | 0, l => [l]
  | fuel + 1, '\n' :: rest =>
    ('\n' :: rest.takeWhile horizWs) :: splitParasF fuel (rest.dropWhile horizWs)
  | fuel + 1, c :: rest =>
    match (c :: rest).dropWhile (fun x => x != '\n') with
    | '\n' :: r2 =>
      ((c :: rest).takeWhile (fun x => x != '\n') ++ '\n' :: r2.takeWhile horizWs)
        :: splitParasF fuel (r2.dropWhile horizWs)
    | _ => [(c :: rest).takeWhile (fun x => x != '\n')]

/-- The paragraph split itself. -/
def splitParas (l : List Char) : List (List Char) := splitParasF l.length l

theorem splitParasF_succ_nl (fuel : Nat) (rest : List Char) :
    splitParasF (fuel + 1) ('\n' :: rest) =
      ('\n' :: rest.takeWhile horizWs) :: splitParasF fuel (rest.dropWhile horizWs) :=
  rfl

theorem splitParasF_succ_line (fuel : Nat) (c : Char) (rest r2 : List Char)
    (hc : ¬ c = '\n')
    (h : (c :: rest).dropWhile (fun x => x != '\n') = '\n' :: r2) :
    splitParasF (fuel + 1) (c :: rest) =
      ((c :: rest).takeWhile (fun x => x != '\n') ++ '\n' :: r2.takeWhile horizWs)
        :: splitParasF fuel (r2.dropWhile horizWs) := by
  rw [splitParasF.eq_def]
  split
  · rename_i heq
    exact absurd heq (by simp)
  · rename_i hfeq hne
    omega
  · rename_i f3 r3 hfeq heq
    exact absurd (List.cons.inj heq).1 hc
  · rename_i f4 c4 r4 hne hfeq heq
    obtain ⟨h1, h2⟩ := List.cons.inj heq
    subst h1
    subst h2
    have hf : f4 = fuel := by omega
    subst hf
    rw [h]
    rfl

theorem splitParasF_succ_eol (fuel : Nat) (c : Char) (rest : List Char)
    (hc : ¬ c = '\n')
    (h : (c :: rest).dropWhile (fun x => x != '\n') = []) :
    splitParasF (fuel + 1) (c :: rest) =
      [(c :: rest).takeWhile (fun x => x != '\n')] := by
  rw [splitParasF.eq_def]
  split
  · rename_i heq
    exact absurd heq (by simp)
  · rename_i hfeq hne
    omega
  · rename_i f3 r3 hfeq heq
    exact absurd (List.cons.inj heq).1 hc
  · rename_i f4 c4 r4 hne hfeq heq
    obtain ⟨h1, h2⟩ := List.cons.inj heq
    subst h1
    subst h2
    rw [h]

theorem splitParasF_congr (f1 : Nat) : ∀ (f2 : Nat) (l : List Char),
    l.length ≤ f1 → l.length ≤ f2 → splitParasF f1 l = splitParasF f2 l := by
  induction f1 with
  | zero =>
    intro f2 l h1 _
    have hl : l = [] := List.eq_nil_of_length_eq_zero (Nat.le_zero.mp h1)
    subst hl
    cases f2 <;> rfl
  | succ f1 ih =>
    intro f2 l h1 h2
    match l with
    | [] => cases f2 <;> rfl
    | c :: rest =>
      match f2, h2 with
      | 0, h2 => simp at h2
      | f2 + 1, h2 =>
        by_cases hc : c = '\n'
        · subst hc
          rw [splitParasF_succ_nl, splitParasF_succ_nl]
          have hb := (List.dropWhile_sublist (l := rest) horizWs).length_le
          simp only [List.length_cons] at h1 h2
          rw [ih f2 (rest.dropWhile horizWs) (by omega) (by omega)]
        · cases hd : (c :: rest).dropWhile (fun x => x != '\n') with
          | nil =>
            rw [splitParasF_succ_eol f1 c rest hc hd,
              splitParasF_succ_eol f2 c rest hc hd]
          | cons d r2 =>
            have hdf := head_dropWhile_false (fun x => x != '\n') (c :: rest) d
              (by simp [hd])
            simp only [bne_eq_false_iff_eq] at hdf
            subst hdf
            rw [splitParasF_succ_line f1 c rest r2 hc hd,
              splitParasF_succ_line f2 c rest r2 hc hd]
            have hlen : ('\n' :: r2).length ≤ (c :: rest).length := by
              rw [← hd]
              exact (List.dropWhile_sublist _).length_le
            have hb := (List.dropWhile_sublist (l := r2) horizWs).length_le
            simp only [List.length_cons] at hlen h1 h2
            rw [ih f2 (r2.dropWhile horizWs) (by omega) (by omega)]

theorem splitParas_nil : splitParas [] = [] := rfl

theorem splitParas_cons_nl (rest : List Char) :
    splitParas ('\n' :: rest) =
      ('\n' :: rest.takeWhile horizWs) :: splitParas (rest.dropWhile horizWs) := by
  show splitParasF (rest.length + 1) ('\n' :: rest) = _
  rw [splitParasF_succ_nl]
  rw [splitParasF_congr rest.length (rest.dropWhile horizWs).length
    (rest.dropWhile horizWs) (List.dropWhile_sublist _).length_le le_rfl]
  rfl

theorem splitParas_cons_line (c : Char) (rest r2 : List Char) (hc : ¬ c = '\n')
    (h : (c :: rest).dropWhile (fun x => x != '\n') = '\n' :: r2) :
    splitParas (c :: rest) =
      ((c :: rest).takeWhile (fun x => x != '\n') ++ '\n' :: r2.takeWhile horizWs)
        :: splitParas (r2.dropWhile horizWs) := by
  show splitParasF (rest.length + 1) (c :: rest) = _
  rw [splitParasF_succ_line rest.length c rest r2 hc h]
  have hlen : ('\n' :: r2).length ≤ (c :: rest).length := by
    rw [← h]
    exact (List.dropWhile_sublist _).length_le
  have hb := (List.dropWhile_sublist (l := r2) horizWs).length_le
  simp only [List.length_cons] at hlen
  rw [splitParasF_congr rest.length (r2.dropWhile horizWs).length
    (r2.dropWhile horizWs) (by omega) le_rfl]
  rfl

theorem splitParas_cons_eol (c : Char) (rest : List Char) (hc : ¬ c = '\n')
    (h : (c :: rest).dropWhile (fun x => x != '\n') = []) :
    splitParas (c :: rest) = [(c :: rest).takeWhile (fun x => x != '\n')] := by
  show splitParasF (rest.length + 1) (c :: rest) = _
  rw [splitParasF_succ_eol rest.length c rest hc h]

theorem splitParas_flatten (l : List Char) : (splitParas l).flatten = l := by
  have main : ∀ n (l : List Char), l.length ≤ n → (splitParas l).flatten = l := by
    intro n
    induction n with
    | zero =>
      intro l h
      have : l = [] := List.eq_nil_of_length_eq_zero (Nat.le_zero.mp h)
      subst this
      rfl
    | succ n ih =>
      intro l h
      match l with
      | [] => rfl
      | c :: rest =>
        by_cases hc : c = '\n'
        · subst hc
          have hb := (List.dropWhile_sublist (l := rest) horizWs).length_le
          simp only [List.length_cons] at h
          rw [splitParas_cons_nl, List.flatten_cons, ih _ (by omega)]
          simp [List.takeWhile_append_dropWhile]
        · cases hd : (c :: rest).dropWhile (fun x => x != '\n') with
          | nil =>
            rw [splitParas_cons_eol c rest hc hd]
            have h2 := List.takeWhile_append_dropWhile
              (p := fun x => x != '\n') (l := c :: rest)
            rw [hd, List.append_nil] at h2
            simpa using h2
          | cons d r2 =>
            have hdf := head_dropWhile_false (fun x => x != '\n') (c :: rest) d
              (by simp [hd])
            simp only [bne_eq_false_iff_eq] at hdf
            subst hdf
            have hlen : ('\n' :: r2).length ≤ (c :: rest).length := by
              rw [← hd]
              exact (List.dropWhile_sublist _).length_le
            have hb := (List.dropWhile_sublist (l := r2) horizWs).length_le
            simp only [List.length_cons] at hlen h
            rw [splitParas_cons_line c rest r2 hc hd, List.flatten_cons,
              ih _ (by omega), List.append_assoc]
            simp only [List.cons_append]
            rw [List.takeWhile_append_dropWhile, ← hd,
              List.takeWhile_append_dropWhile]
  exact main l.length l le_rfl

/-- The regex class `[A-Z]`. -/
def isUpperAZ (c : Char) : Bool := 65 ≤ c.toNat && c.toNat ≤ 90

/-- The regex class `[a-z]`. -/
def isLowerAZ (c : Char) : Bool := 97 ≤ c.toNat && c.toNat ≤ 122

/-- The alternation `(\d+|[A-Z]{1,3}|[a-z]{1,3})` inside the enumerator
group: the captured length and the remainder, with maximal runs.  Giving
characters back from a run restarts the following `\s*\)` on a character of
the same class, which can match neither, so a class whose maximal run fails
(or, for the letter classes, exceeds 3) fails outright, and the classes are
mutually exclusive on their first character. -/
def matchEnumX (r2 : List Char) : Option (Nat × List Char) :=
  let ds := r2.takeWhile isDigit09
  if !ds.isEmpty then some (ds.length, r2.dropWhile isDigit09)
  else
    let us := r2.takeWhile isUpperAZ
    if !us.isEmpty && us.length ≤ 3 then some (us.length, r2.dropWhile isUpperAZ)
    else
      let ls := r2.takeWhile isLowerAZ
      if !ls.isEmpty && ls.length ≤ 3 then some (ls.length, r2.dropWhile isLowerAZ)
      else none

/-- One parenthesized enumerator `\(\s*(\d+|[A-Z]{1,3}|[a-z]{1,3})\s*\)` of
`split_numbering`'s first pattern, anchored at `cs`; returns the consumed
length. -/
def matchEnumGroup (cs : List Char) : Option Nat :=
  match cs with
  | '(' :: r1 =>
    match matchEnumX (r1.dropWhile pySpace) with
    | some (xlen, r3) =>
      match r3.dropWhile pySpace with
      | ')' :: _ =>
        some (1 + (r1.takeWhile pySpace).length + xlen +
          (r3.takeWhile pySpace).length + 1)
      | _ => none
    | none => none
  | _ => none

theorem matchEnumGroup_bound (cs : List Char) (n : Nat)
    (h : matchEnumGroup cs = some n) : 1 ≤ n ∧ 1 ≤ cs.length := by
  unfold matchEnumGroup at h
  split at h
  · refine ⟨?_, by simp⟩
    split at h
    · split at h
      · have := Option.some.inj h
        omega
      · exact absurd h (by simp)
    · exact absurd h (by simp)
  · exact absurd h (by simp)

/-- `((group)\s*)+` seen from after the first group: the greedy repetition
consumes as many further enumerator groups, each with its trailing
whitespace, as will match (fuel-structural; each group consumes at least one
character). -/
def matchEnumRepsF : Nat → List Char → Nat
  | 0, _ => 0
  | fuel + 1, cs =>
    match matchEnumGroup cs with
    | some n =>
      n + ((cs.drop n).takeWhile pySpace).length +
        matchEnumRepsF fuel ((cs.drop n).dropWhile pySpace)
    | none => 0

def matchEnumReps (cs : List Char) : Nat := matchEnumRepsF cs.length cs

theorem matchEnumRepsF_congr (f1 : Nat) : ∀ (f2 : Nat) (cs : List Char),
    cs.length ≤ f1 → cs.length ≤ f2 →
    matchEnumRepsF f1 cs = matchEnumRepsF f2 cs := by
  induction f1 with
  | zero =>
    intro f2 cs h1 _
    have : cs = [] := List.eq_nil_of_length_eq_zero (Nat.le_zero.mp h1)
    subst this
    cases f2 with
    | zero => rfl
    | succ f2 =>
      show 0 = (match matchEnumGroup [] with
        | some n =>
          n + (([].drop n).takeWhile pySpace).length +
            matchEnumRepsF f2 (([].drop n).dropWhile pySpace)
        | none => 0)
      rfl
  | succ f1 ih =>
    intro f2 cs h1 h2
    cases hg : matchEnumGroup cs with
    | none =>
      cases f2 with
      | zero =>
        have : cs = [] := List.eq_nil_of_length_eq_zero (Nat.le_zero.mp h2)
        subst this
        simp [matchEnumRepsF, hg]
      | succ f2 => simp [matchEnumRepsF, hg]
    | some n =>
      obtain ⟨hn, hcs⟩ := matchEnumGroup_bound cs n hg
      cases f2 with
      | zero => omega
      | succ f2 =>
        simp only [matchEnumRepsF, hg]
        have hd : (cs.drop n).length = cs.length - n := List.length_drop n cs
        have hw := (List.dropWhile_sublist (l := cs.drop n) pySpace).length_le
        rw [ih f2 ((cs.drop n).dropWhile pySpace) (by omega) (by omega)]

/-- `re.match(r'\s*?((\(\s*(\d+|[A-Z]{1,3}|[a-z]{1,3})\s*\))\s*)+', s)`: the
consumed length of group 0, if the bracketed pattern matches at the start.
The lazy `\s*?` can only stop where `\(` matches; whitespace characters are
not `(`, so it skips the whole leading whitespace run and the first group
must match right after it. -/
def matchBracketed (cs : List Char) : Option Nat :=
  let r := cs.dropWhile pySpace
  match matchEnumGroup r with
  | some n =>
    some ((cs.takeWhile pySpace).length + n +
      ((r.drop n).takeWhile pySpace).length +
      matchEnumReps ((r.drop n).dropWhile pySpace))
  | none => none

/-- `re.match(r'\s*((\d+|[A-Z]+)\.)\s', s)`: the consumed length of group 0
(leading whitespace, the digit or capital run, the dot, and the one required
whitespace character).  Runs are maximal: a shorter run restarts `\.` on a
character of the same class; and the classes are mutually exclusive on their
first character. -/
def matchDotted (cs : List Char) : Option Nat :=
  let w0 := (cs.takeWhile pySpace).length
  let r := cs.dropWhile pySpace
  let core : Option Nat :=
    let ds := r.takeWhile isDigit09
    if !ds.isEmpty then
      match r.dropWhile isDigit09 with
      | '.' :: c2 :: _ => if pySpace c2 then some (ds.length + 2) else none
      | _ => none
    else
      let us := r.takeWhile isUpperAZ
      if !us.isEmpty then
        match r.dropWhile isUpperAZ with
        | '.' :: c2 :: _ => if pySpace c2 then some (us.length + 2) else none
        | _ => none
      else none
  core.map (fun n => w0 + n)

/-- `split_numbering` (`src/preprocessing/parsing.py` lines 165-179): try the
bracketed enumerator pattern, then the dotted one; on a match the matched
prefix (group 0) becomes the numbering and is removed from the text;
otherwise the numbering is `np.nan` (`none`) and the text unchanged. -/
def split_numbering (s : String) : Option String × String :=
  match matchBracketed s.data with
  | some n => (some ⟨s.data.take n⟩, ⟨s.data.drop n⟩)
  | none =>
    match matchDotted s.data with
    | some n => (some ⟨s.data.take n⟩, ⟨s.data.drop n⟩)
    | none => (none, s)

/-- The numbering is split off the front of the text: re-attaching it
restores the unit. -/
theorem split_numbering_prepend (s : String) :
    (split_numbering s).1.getD "" ++ (split_numbering s).2 = s := by
  unfold split_numbering
  split
  · show String.mk (s.data.take _ ++ s.data.drop _) = s
    rw [List.take_append_drop]
  · split
    · show String.mk (s.data.take _ ++ s.data.drop _) = s
      rw [List.take_append_drop]
    · show String.mk ([] ++ s.data) = s
      rw [List.nil_append]

/-- Concatenation of a list of strings (byte-for-byte). -/
def concatStrings (l : List String) : String :=
  ⟨(l.map String.data).flatten⟩

/-- The per-node paragraph texts (`src/preprocessing/parsing.py` lines
273-276): when splitting is enabled and the text is truthy (nonempty), the
tiling produced by the finditer; otherwise the single unsplit text. -/
def node_par_texts (split_paragraphs : Bool) (text : String) : List String :=
  if split_paragraphs && !(text == "") then
    (splitParas text.data).map (fun l => (⟨l⟩ : String))
  else [text]

/-- The per-node `(numbering, text)` pairs (lines 278-284): each paragraph
text optionally has its leading enumerator split off. -/
def node_units (extract_numbering : Bool) (par_texts : List String) :
    List (Option String × String) :=
  par_texts.map (fun t => if extract_numbering then split_numbering t else (none, t))

/-- One source node's Paragraph Records, reduced to the fields the split
concerns: `(numbering, text)` per record, from the node's extracted text. -/
def node_paragraphs (extract_numbering split_paragraphs : Bool) (text : String) :
    List (Option String × String) :=
  node_units extract_numbering (node_par_texts split_paragraphs text)

theorem concatStrings_mk (ls : List (List Char)) :
    concatStrings (ls.map (fun l => (⟨l⟩ : String))) = ⟨ls.flatten⟩ := by
  unfold concatStrings
  rw [List.map_map]
  have hid : (String.data ∘ fun l : List Char => (⟨l⟩ : String)) = id := rfl
  rw [hid, List.map_id]

theorem concat_map_eval (f : List Char → String) (ls : List (List Char))
    (hs : ∀ l, f l = ⟨l⟩) :
    concatStrings (ls.map f) = ⟨ls.flatten⟩ := by
  have hf : f = fun l => (⟨l⟩ : String) := funext hs
  rw [hf]
  exact concatStrings_mk ls

/-- Claim C5, counterexample: with the parser's default settings
(`extract_numbering=True`), a node whose text carries a leading enumerator
loses it from the `text` fields — `"1. Foo\n"` yields the single record
`(numbering "1. ", text "Foo\n")`, and the concatenated text fields do not
reproduce the extracted text. -/
theorem C5_numbering_breaks_round_trip :
    node_paragraphs true true "1. Foo\n" = [(some "1. ", "Foo\n")] ∧
    concatStrings ((node_paragraphs true true "1. Foo\n").map Prod.snd) =
      "Foo\n" ∧
    ("Foo\n" : String) ≠ "1. Foo\n" := by
  refine ⟨rfl, rfl, by decide⟩

/-- Claim C5 as amended (proved): with paragraph splitting enabled the split
itself is a tiling — every character of the unsplit text goes to exactly one
record, in order.  With numbering extraction disabled, concatenating the
`text` fields reproduces the node's extracted text byte-for-byte; with it
enabled (the default), each record's numbering must be re-attached in front
of its text to reproduce the extracted text. -/
theorem C5_split_round_trip (text : String) :
    concatStrings ((node_paragraphs false true text).map Prod.snd) = text ∧
    concatStrings ((node_paragraphs true true text).map
      (fun r => r.1.getD "" ++ r.2)) = text := by
  constructor
  · unfold node_paragraphs node_units node_par_texts
    by_cases h : text = ""
    · subst h
      rfl
    · have hb : (true && !(text == "")) = true := by
        simp [h]
      rw [hb]
      simp only [if_true, List.map_map]
      refine Eq.trans (concat_map_eval _ _ (fun l => rfl)) ?_
      rw [splitParas_flatten]
  · unfold node_paragraphs node_units node_par_texts
    by_cases h : text = ""
    · subst h
      show concatStrings [(split_numbering "").1.getD "" ++ (split_numbering "").2] = ""
      rw [split_numbering_prepend]
      rfl
    · have hb : (true && !(text == "")) = true := by
        simp [h]
      rw [hb]
      simp only [if_true, List.map_map]
      refine Eq.trans (concat_map_eval _ _
        (fun l => split_numbering_prepend ⟨l⟩)) ?_
      rw [splitParas_flatten]

/-! ## The XML walk (`parse_reg_xml_tree`) -/

/-- One emitted Paragraph Record, restricted to the fields the claims
examine.  `xml_path` is the tag sequence of `tree.getpath(element)` (root to
the element itself); the positional indices `[k]` of `getpath` are omitted —
they consist of digits and brackets and cannot contribute to a match of the
marker regex, whose alternatives are pure uppercase words. -/
structure PRecord where
  xml_path : List String
  header : List String
  legal : Bool
  tag : String
  numbering : Option String
  text : String
deriving DecidableEq, Repr

/-- The path string `getpath` produces, without positional indices. -/
def pathString (path : List String) : String :=
  "/" ++ String.intercalate "/" path

/-- `re.search(r'(SECTION|AMDPAR|EXTRACT|SUBPART)', xml_path)`: one of the
four marker words occurs in the path string. -/
def hasMarker (path : List String) : Bool :=
  ["SECTION", "AMDPAR", "EXTRACT", "SUBPART"].any
    (fun m => containsSubstr (pathString path).data m.data)

/-- `update_header` (`src/preprocessing/parsing.py` lines 49-63):
`level_string = element.get('SOURCE','HED')`; its last character (an
`IndexError` — modelled as an exception — if the attribute is the empty
string) has `D` replaced by `0` and is parsed with `int` (a `ValueError`
if it is not a digit); the stack is then cut or grown to the new level and
its last entry replaced by the header text. -/
def update_header (header : List String) (e : Elem) : Except Unit (List String) :=
  let header_text := itertextAll e
  let level_string := (e.attrs.lookup "SOURCE").getD "HED"
  match level_string.data.getLast? with
  | none => Except.error ()
  | some c =>
    let c := if c == 'D' then '0' else c
    if isDigit09 c then
      let new_level := (c.toNat - 48) + 1
      if new_level < header.length then
        Except.ok (header.take (new_level - 1) ++ [header_text])
      else
        Except.ok ((header ++ List.replicate (new_level - header.length) "").dropLast
          ++ [header_text])
    else Except.error ()

/-- The `legal` flag of one emitted record (`src/preprocessing/parsing.py`
lines 229-241): true when a `REGTEXT` element is among the ancestors, or
when a `PART` element has been seen (the tracked `part_element` is not
`None`) and the path contains a marker. -/
def legalFlag (anc : List String) (tag : String) (partSeen : Bool) : Bool :=
  if anc.contains "REGTEXT" then true
  else if partSeen && hasMarker (anc ++ [tag]) then true
  else false

/-- The records emitted for one element of interest (lines 223-284, minus
the fields not modelled): the element's extracted text, split into units,
each with its optional numbering, sharing the path, header and legal flag. -/
def emitRecords (extract_numbering split_paragraphs : Bool) (anc : List String)
    (partSeen : Bool) (header : List String) (e : Elem) :
    Except Unit (List PRecord) := do
  let text ← get_element_text e
  let legal := legalFlag anc e.tag partSeen
  let units := node_paragraphs extract_numbering split_paragraphs text
  Except.ok (units.map (fun u => ⟨anc ++ [e.tag], header, legal, e.tag, u.1, u.2⟩))

mutual

/-- A computable size for the fuel bound of the walk. -/
def elemSize : Elem → Nat
  | Elem.mk _ _ _ _ children => 1 + elemSizeList children

def elemSizeList : List Elem → Nat
  | [] => 1
  | e :: es => 1 + elemSize e + elemSizeList es

end

mutual

/-- The body of the `for element in root.iter()` loop, for one element and
its subtree in pre-order: track the most recent `PART`, update the header
stack at `HD` elements, and emit records for the elements of interest.
Returns the updated `(part-seen, header)` state and the records in document
order.  The fuel parameter makes the nested recursion structural; every
recursive call passes a strictly smaller subterm, whose `elemSize` stays
below the decremented fuel, so starting from `elemSize root` (see
`parse_reg_xml_tree`) the fuel-exhausted branch is never taken. -/
def walkElemF : Nat → Bool → Bool → List String → Bool → List String → Elem →
    Except Unit (Bool × List String × List PRecord)
  | 0, _, _, _, _, _, _ => Except.error ()
  | fuel + 1, en, sp, anc, partSeen, header, e => do
    let partSeen2 := partSeen || e.tag == "PART"
    let header2 ←
      if e.tag == "PART" then Except.ok header
      else if e.tag == "HD" then update_header header e
      else Except.ok header
    let recs ←
      if ["P", "AMDPAR", "HD", "EXTRACT", "GPOTABLE", "SECTION"].contains e.tag
      then emitRecords en sp anc partSeen2 header2 e
      else Except.ok []
    let rest ← walkListF fuel en sp (anc ++ [e.tag]) partSeen2 header2 e.children
    Except.ok (rest.1, rest.2.1, recs ++ rest.2.2)

/-- The walk over a sibling list, threading the part/header state. -/
def walkListF : Nat → Bool → Bool → List String → Bool → List String →
    List Elem → Except Unit (Bool × List String × List PRecord)
  | 0, _, _, _, _, _, _ => Except.error ()
  | _ + 1, _, _, _, partSeen, header, [] => Except.ok (partSeen, header, [])
  | fuel + 1, en, sp, anc, partSeen, header, e :: es => do
    let r1 ← walkElemF fuel en sp anc partSeen header e
    let r2 ← walkListF fuel en sp anc r1.1 r1.2.1 es
    Except.ok (r2.1, r2.2.1, r1.2.2 ++ r2.2.2)

end

/-- `parse_reg_xml_tree`, reduced to the record fields the claims examine:
the pre-order walk from the root with no part seen and an empty header. -/
def parse_reg_xml_tree (extract_numbering split_paragraphs : Bool)
    (root : Elem) : Except Unit (List PRecord) :=
  (walkElemF (elemSize root) extract_numbering split_paragraphs [] false [] root).map
    (fun r => r.2.2)

theorem legalFlag_eq (anc : List String) (tag : String) (ps : Bool) :
    legalFlag anc tag ps =
      (anc.contains "REGTEXT" || (ps && hasMarker (anc ++ [tag]))) := by
  unfold legalFlag
  cases h1 : anc.contains "REGTEXT" <;>
    cases h2 : ps && hasMarker (anc ++ [tag]) <;> simp [h1, h2]

/-- Claim C8 as amended (proved): a record emitted while processing one
element has `legal = true` exactly when a `REGTEXT` element is among the
element's ancestors, or the walk's most-recent-part state is set (a `PART`
element occurred earlier in document order — not necessarily an ancestor)
and the element's path contains a section/amendment/extract/subpart
marker. -/
theorem C8_legal_flag (en sp : Bool) (anc : List String) (partSeen : Bool)
    (header : List String) (e : Elem) (recs : List PRecord)
    (hw : emitRecords en sp anc partSeen header e = Except.ok recs)
    (r : PRecord) (hr : r ∈ recs) :
    r.legal = true ↔
      (anc.contains "REGTEXT" = true ∨
        (partSeen = true ∧ hasMarker (anc ++ [e.tag]) = true)) := by
  unfold emitRecords at hw
  cases ht : get_element_text e with
  | error u =>
    rw [ht] at hw
    exact Except.noConfusion hw
  | ok text =>
    rw [ht] at hw
    have hw' : (node_paragraphs en sp text).map
        (fun u => (⟨anc ++ [e.tag], header, legalFlag anc e.tag partSeen,
          e.tag, u.1, u.2⟩ : PRecord)) = recs := Except.ok.inj hw
    rcases List.mem_map.mp (hw' ▸ hr) with ⟨u, hu, rfl⟩
    show legalFlag anc e.tag partSeen = true ↔ _
    rw [legalFlag_eq]
    simp [Bool.or_eq_true, Bool.and_eq_true]

/-- An empty `PART` element, sibling of the content it governs. -/
def partElemX : Elem := Elem.mk "PART" [] none none []

/-- A paragraph inside the section. -/
def pElemX : Elem := Elem.mk "P" [] (some "Hello") (some "") []

/-- A `SECTION` that is a sibling, not a descendant, of the `PART`. -/
def sectionElemX : Elem := Elem.mk "SECTION" [] none (some "") [pElemX]

/-- A document whose `PART` element precedes a `SECTION` without containing
it (part boundaries are siblings of the content they govern). -/
def ruleElemX : Elem := Elem.mk "RULE" [] none none [partElemX, sectionElemX]

/-- Claim C8, counterexample: in `ruleElemX` the `SECTION` and `P` records
descend from neither `REGTEXT` nor `PART` (their ancestor lists are
`["RULE"]` and `["RULE","SECTION"]`), yet both carry `legal = true`,
because a `PART` occurred earlier in document order and the path contains
the `SECTION` marker.  The claim's "descends from an identified part node"
is therefore false of the code. -/
theorem C8_legal_true_without_part_ancestor :
    parse_reg_xml_tree true true ruleElemX =
      Except.ok
        [⟨["RULE", "SECTION"], [], true, "SECTION", none, "Hello"⟩,
         ⟨["RULE", "SECTION", "P"], [], true, "P", none, "Hello"⟩] ∧
    (["RULE"] : List String).contains "REGTEXT" = false ∧
    (["RULE"] : List String).contains "PART" = false ∧
    (["RULE", "SECTION"] : List String).contains "REGTEXT" = false ∧
    (["RULE", "SECTION"] : List String).contains "PART" = false :=
  ⟨rfl, by decide, by decide, by decide, by decide⟩

/-- Claim C8, witness: the record emitted for `sectionElemX` with a part
seen earlier satisfies the amended equivalence. -/
theorem C8_legal_flag_witness :
    ((⟨["RULE", "SECTION"], [], true, "SECTION", none, "Hello"⟩ : PRecord).legal
        = true ↔
      ((["RULE"] : List String).contains "REGTEXT" = true ∨
        (true = true ∧ hasMarker (["RULE"] ++ ["SECTION"]) = true))) :=
  C8_legal_flag true true ["RULE"] true [] sectionElemX
    [⟨["RULE", "SECTION"], [], true, "SECTION", none, "Hello"⟩] rfl
    ⟨["RULE", "SECTION"], [], true, "SECTION", none, "Hello"⟩ (by decide)

/-! ## The HTML/plain-text parser (`split_tables`, `extract_html_paragraphs`) -/

/-- Python `str.isalpha` restricted to the ASCII letters (no string in any
theorem below contains a non-ASCII letter). -/
def pyIsAlpha (c : Char) : Bool := isUpperAZ c || isLowerAZ c

/-- `line_code` (`src/preprocessing/parsing.py` lines 363-381): classify one
line as blank `' '`, dashed rule `'-'`, indented continuation `'c'`,
mostly-stars `'*'`, mostly-alphabetic `'a'` or other `'.'`.  The float
comparisons `stars >= 0.5*len` and `alphas + stars > 0.5*len` are exact for
any realistic length, and are written as the equivalent integer
comparisons. -/
def line_code (l : List Char) : Char :=
  if l.all pySpace then ' '
  else if l.count '-' == l.length then '-'
  else if [' ', ' ', ' ', ' ', ' '].isPrefixOf l then 'c'
  else
    let stars := l.count '*'
    if l.length ≤ 2 * stars then '*'
    else
      let alphas := (l.filter pyIsAlpha).length
      if l.length < 2 * (alphas + stars) then 'a'
      else '.'

/-- The signature characters a table region may contain after a dash,
`[ c\.]`, together with the dash itself that opens each repetition. -/
def tableChar (c : Char) : Bool := c == '-' || c == ' ' || c == 'c' || c == '.'

/-- One attempt of `re.search(r'.(-[ c\.]*){2,}', line_codes)` anchored at
`cs`: `.` takes the first signature character, then the greedy repetition
consumes the maximal following run over `{'-',' ','c','.'}` that starts with
a dash (every dash in the run opens a repetition, the other characters extend
`[ c\.]*`); the match exists when that run contains at least two dashes.
Giving characters back cannot help: the repetition has no continuation, and a
shorter `[ c\.]*` leaves a non-dash where the next repetition needs `-`. -/
def matchTableAt (cs : List Char) : Option Nat :=
  match cs with
  | [] => none
  | _ :: rest =>
    match rest with
    | '-' :: _ =>
      if 2 ≤ (rest.takeWhile tableChar).count '-' then
        some (1 + (rest.takeWhile tableChar).length)
      else none
    | _ => none

theorem matchTableAt_bound (cs : List Char) (n : Nat)
    (h : matchTableAt cs = some n) : 1 ≤ n := by
  unfold matchTableAt at h
  split at h
  · exact absurd h (by simp)
  · split at h
    · split at h
      · have := Option.some.inj h
        omega
      · exact absurd h (by simp)
    · exact absurd h (by simp)

/-- The spans `(start, end)` of the non-overlapping leftmost matches of
`re.finditer(r'.(-[ c\.]*){2,}', line_codes)` (fuel-structural; each match
consumes at least one character, so `codes.length` fuel suffices). -/
def tableSpansF : Nat → Nat → List Char → List (Nat × Nat)
  | 0, _, _ => []
  | _ + 1, _, [] => []
  | fuel + 1, i, c :: rest =>
    match matchTableAt (c :: rest) with
    | some n => (i, i + n) :: tableSpansF fuel (i + n) ((c :: rest).drop n)
    | none => tableSpansF fuel (i + 1) rest

def tableSpans (codes : List Char) : List (Nat × Nat) :=
  tableSpansF codes.length 0 codes

/-- Python `text.split('\n')`. -/
def pySplitNl : List Char → List (List Char)
  | [] => [[]]
  | '\n' :: rest => [] :: pySplitNl rest
  | c :: rest =>
    match pySplitNl rest with
    | p :: ps => (c :: p) :: ps
    | [] => [[c]]

/-- `'\n'.join(...)` over lines kept as character lists. -/
def joinNl (ls : List (List Char)) : String := ⟨List.intercalate ['\n'] ls⟩

/-- `split_tables` (`src/preprocessing/parsing.py` lines 388-414): split the
text into lines, classify each line, find the rule-delimited regions in the
signature string, and yield `(text-before, table)` pairs — each pair's first
component is `lines[:match.start]` *from the beginning of the text* (the
source re-emits everything before the current match, not since the previous
one), the second `lines[match.start:match.end]`; after the last match the
remaining lines are yielded with an empty table; with no match at all the
whole text is yielded with an empty table. -/
def split_tables (text : String) : List (String × String) :=
  let lines := pySplitNl text.data
  let line_codes := lines.map line_code
  let spans := tableSpans line_codes
  match spans with
  | [] => [(text, "")]
  | _ :: _ =>
    (spans.map (fun sp =>
      (joinNl (lines.take sp.1), joinNl ((lines.drop sp.1).take (sp.2 - sp.1))))) ++
    (match spans.getLast? with
     | some last => if last.2 < lines.length then [(joinNl (lines.drop last.2), "")] else []
     | none => [])

/-- `re.sub(r'(?<=\n) {4}(?!\s)','    <P>',text)` (`extract_html_paragraphs`
line 426): after each newline, exactly four spaces followed by a
non-whitespace character (or the end of the text) are replaced by
`"    <P>"`; the look-behind restricts candidate positions to the character
right after a newline, so the scan advances one character at a time except
over a replaced group. -/
def markP : List Char → List Char
  | [] => []
  | '\n' :: ' ' :: ' ' :: ' ' :: ' ' :: t =>
    if (match t with | [] => true | c :: _ => !pySpace c) then
      '\n' :: ' ' :: ' ' :: ' ' :: ' ' :: '<' :: 'P' :: '>' :: markP t
    else
      '\n' :: ' ' :: ' ' :: ' ' :: ' ' :: markP t
  | '\n' :: rest => '\n' :: markP rest
  | c :: rest => c :: markP rest

/-- Where a paragraph chunk of `re.finditer(r'.+?[^\n]($|\n{2}\s*|(?=<P>))')`
may end: after the final `[^\n]` character the rest of the text is empty or a
single final newline (the `$` branch without `MULTILINE`), starts with two
newlines, or starts with the literal `<P>` (zero-width look-ahead). -/
def isBoundary : List Char → Bool
  | [] => true
  | ['\n'] => true
  | '\n' :: '\n' :: _ => true
  | '<' :: 'P' :: '>' :: _ => true
  | _ => false

/-- What the boundary itself consumes (these characters belong to the match's
group 0): `\n{2}\s*` eats the two newlines and all following whitespace
greedily; `$` and the look-ahead consume nothing. -/
def boundaryTaken : List Char → List Char
  | '\n' :: '\n' :: t => '\n' :: '\n' :: t.takeWhile pySpace
  | _ => []

/-- The text remaining after the boundary. -/
def boundaryRest : List Char → List Char
  | '\n' :: '\n' :: t => t.dropWhile pySpace
  | r => r

/-- The chunks of `re.finditer(r'.+?[^\n]($|\n{2}\s*|(?=<P>))', text,
flags=re.DOTALL)`.  Lazy `.+?` makes each chunk end at the first position
with at least two characters consumed whose last character is not a newline
and whose remainder satisfies `isBoundary`; text left over when no further
boundary can be reached (at most a trailing newline, or a tail with no
eligible end) yields no chunk.  Fuel-structural: every step consumes at least
one character, so the text length is enough fuel. -/
def chunksAuxF : Nat → List Char → List Char → List (List Char)
  | 0, _, _ => []
  | _ + 1, _, [] => []
  | fuel + 1, acc, c :: rest =>
    if !acc.isEmpty && !(c == '\n') && isBoundary rest then
      (acc.reverse ++ c :: boundaryTaken rest) ::
        chunksAuxF fuel [] (boundaryRest rest)
    else chunksAuxF fuel (c :: acc) rest

def chunks (l : List Char) : List (List Char) := chunksAuxF l.length [] l

/-- `re.match(r'^-{5,}\s*$', s)` (line 430): at least five leading dashes and
nothing but whitespace after them (`$` also matches before a final newline,
which greedy `\s*` can already absorb). -/
def isDashedChunk (s : String) : Bool :=
  decide (5 ≤ (s.data.takeWhile (fun c => c == '-')).length) &&
    (s.data.dropWhile (fun c => c == '-')).all pySpace

/-- `re.sub(r'\n-{5,}\n','\n',s)` (line 436): each newline, at least five
dashes and a closing newline collapse to a single newline; scanning resumes
after the consumed closing newline.  Backtracking cannot shorten the greedy
dash run (a shorter run leaves a dash where `\n` is required), so the maximal
run followed by a newline is the only candidate.  Fuel-structural. -/
def dropDashedLinesF : Nat → List Char → List Char
  | 0, l => l
  | _ + 1, [] => []
  | fuel + 1, c :: rest =>
    if c == '\n' then
      let ds := rest.takeWhile (fun x => x == '-')
      if 5 ≤ ds.length && ((rest.drop ds.length).head? == some '\n') then
        '\n' :: dropDashedLinesF fuel (rest.drop (ds.length + 1))
      else '\n' :: dropDashedLinesF fuel rest
    else c :: dropDashedLinesF fuel rest

def dropDashedLines (l : List Char) : List Char := dropDashedLinesF l.length l

/-- Python `str.strip()` on both ends. -/
def pyStripEnds (l : List Char) : List Char :=
  ((l.dropWhile pySpace).reverse.dropWhile pySpace).reverse

/-- `tag_html_paragraph` (`src/preprocessing/parsing.py` lines 331-344): the
literal `<P>` prefix, `\d\n\S` for an amendment paragraph, `§\s+\d` for a
section heading (the whitespace run is maximal since no whitespace character
is a digit), a leading star, or any other non-whitespace start — a heading if
the stripped text is a single line, an extract otherwise; `None` when the
chunk is empty or starts with whitespace. -/
def tag_html_paragraph (s : String) : Option String :=
  if ['<', 'P', '>'].isPrefixOf s.data then some "P"
  else if (match s.data with
           | a :: b :: c :: _ => isDigit09 a && b == '\n' && !pySpace c
           | _ => false) then some "AMDPAR"
  else if (match s.data with
           | '§' :: rest =>
             !(rest.takeWhile pySpace).isEmpty &&
               (match rest.dropWhile pySpace with
                | d :: _ => isDigit09 d
                | [] => false)
           | _ => false) then some "SECTION"
  else if (match s.data with | '*' :: _ => true | _ => false) then some "STARS"
  else
    match s.data with
    | c :: _ =>
      if !pySpace c then
        if (pyStripEnds s.data).contains '\n' then some "EXTRACT" else some "HD"
      else none
    | [] => none

/-- The variable-width negative look-behind `(?<!\d\s*)` of the footnote
pattern (the source imports the `regex` module, which allows it) matches some
`\d\s*` ending here iff the nearest non-whitespace character before this
position is a digit: any shorter whitespace run ends on a whitespace
character, which is not a digit.  `pre` is the reversed prefix of the
original string before the current position. -/
def lookbehindDigit (pre : List Char) : Bool :=
  match pre.dropWhile pySpace with
  | d :: _ => isDigit09 d
  | [] => false

/-- The scan of `re.finditer`/`re.sub` for `r'(?<!\d\s*)\\(?P<i>\d+)\\'`
(`parse_footnotes`, lines 347-360): collect each backslash-delimited digit
group whose look-behind admits it, and delete it from the output; the
look-behind always reads the original text, accumulated in reverse in `pre`.
Fuel-structural (each step consumes at least one character). -/
def fnScanF : Nat → List Char → List Char → List (List Char) × List Char
  | 0, _, l => ([], l)
  | _ + 1, _, [] => ([], [])
  | fuel + 1, pre, c :: rest =>
    if c == '\\' then
      let ds := rest.takeWhile isDigit09
      if !ds.isEmpty && ((rest.drop ds.length).head? == some '\\') &&
          !lookbehindDigit pre then
        match fnScanF fuel ('\\' :: (ds.reverse ++ '\\' :: pre))
            (rest.drop (ds.length + 1)) with
        | (fns, out) => (ds :: fns, out)
      else
        match fnScanF fuel ('\\' :: pre) rest with
        | (fns, out) => (fns, '\\' :: out)
    else
      match fnScanF fuel (c :: pre) rest with
      | (fns, out) => (fns, c :: out)

/-- `parse_footnotes` (lines 347-360): if the text itself starts with a
footnote marker (`re.match`; the look-behind is vacuous at position 0), that
number is the paragraph's footnote and the collected list stays empty;
otherwise all markers found in the text are collected.  Either way every
marker is deleted from the text. -/
def parse_footnotes (s : String) : Option String × List String × String :=
  let scan := fnScanF s.data.length [] s.data
  let startMatch : Option (List Char) :=
    match s.data with
    | '\\' :: rest =>
      let ds := rest.takeWhile isDigit09
      if !ds.isEmpty && ((rest.drop ds.length).head? == some '\\') then some ds
      else none
    | _ => none
  match startMatch with
  | some ds => (some ⟨ds⟩, [], ⟨scan.2⟩)
  | none => (none, scan.1.map (fun l => ⟨l⟩), ⟨scan.2⟩)

/-- ASCII lower-casing, for the `re.IGNORECASE` heading match (no heading in
any theorem below exercises non-ASCII case folding). -/
def charLower (c : Char) : Char :=
  if isUpperAZ c then Char.ofNat (c.toNat + 32) else c

/-- `re.match(r'(Part\s\d+|Subpart|§|Appendix)', header, re.IGNORECASE)`
(line 452): the header starts with `Part`, one whitespace character and a
digit, or with `Subpart`, `§` or `Appendix`, case-insensitively. -/
def legalHeaderMatch (h : List Char) : Bool :=
  let L := h.map charLower
  (match L with
   | 'p' :: 'a' :: 'r' :: 't' :: c :: rest =>
     pySpace c && (match rest with | d :: _ => isDigit09 d | [] => false)
   | _ => false) ||
  ['s', 'u', 'b', 'p', 'a', 'r', 't'].isPrefixOf L ||
  (match L with | '§' :: _ => true | _ => false) ||
  ['a', 'p', 'p', 'e', 'n', 'd', 'i', 'x'].isPrefixOf L

/-- The mutable state of the `extract_html_paragraphs` loop (lines
419-421). -/
structure HtmlState where
  header : Option String
  legal_header : Bool
  legal : Bool
deriving Repr, DecidableEq

/-- One yielded paragraph or table dictionary.  `footnote`/`numbering` are
`np.nan` as `none`; for table records the `footnote`, `footnotes` and
`numbering` keys are absent from the dictionary, which the dataframe also
renders as missing values, so they are likewise `none`/`[]` here. -/
structure HtmlRecord where
  tag : Option String
  text : String
  footnote : Option String
  footnotes : List String
  header : Option String
  legal : Bool
  numbering : Option String
deriving Repr, DecidableEq

/-- The body of the paragraph loop (lines 429-465) for one chunk: skip dashed
chunks; the tag is read from the chunk *before* interior dashed lines are
dropped; the per-tag transforms, header/legal updates and the optional
numbering split follow the source order.  Returns the updated state and the
yielded records (none or one).  When `extract_numbering` is false the record
has no `numbering` key, rendered here as `none`. -/
def processChunk (en : Bool) (st : HtmlState) (s0 : String) :
    HtmlState × List HtmlRecord :=
  if isDashedChunk s0 then (st, [])
  else
    let tag := tag_html_paragraph s0
    let s1 := dropDashedLines s0.data
    if s1.isEmpty then (st, [])
    else
      let header1 : Option String :=
        match tag with
        | some "HD" => some ⟨pyStripEnds s1⟩
        | some "SECTION" => some ⟨pyStripEnds s1⟩
        | _ => st.header
      let legalHeader1 : Bool :=
        match tag with
        | some "HD" => legalHeaderMatch (pyStripEnds s1)
        | some "SECTION" => true
        | _ => st.legal_header
      let sf : List Char :=
        match tag with
        | some "P" => (parse_footnotes ⟨s1.drop 3⟩).2.2.data
        | some "AMDPAR" => s1.drop 2
        | _ => s1
      let fn : Option String :=
        match tag with
        | some "P" => (parse_footnotes ⟨s1.drop 3⟩).1
        | _ => none
      let fns : List String :=
        match tag with
        | some "P" => (parse_footnotes ⟨s1.drop 3⟩).2.1
        | _ => []
      let legal1 := legalHeader1 ||
        (tag == some "AMDPAR" || tag == some "SECTION" || tag == some "STARS")
      let nt : Option String × String :=
        if en then split_numbering ⟨sf⟩ else (none, ⟨sf⟩)
      (⟨header1, legalHeader1, legal1⟩,
       [⟨tag, nt.2, fn, fns, header1, legal1, nt.1⟩])

/-- Fold `processChunk` over the chunks of one text component, threading the
state. -/
def processChunks (en : Bool) : HtmlState → List (List Char) →
    HtmlState × List HtmlRecord
  | st, [] => (st, [])
  | st, c :: rest =>
    let pc := processChunk en st ⟨c⟩
    let pr := processChunks en pc.1 rest
    (pr.1, pc.2 ++ pr.2)

/-- The outer loop of `extract_html_paragraphs` (lines 423-468): per
`split_tables` component, mark tab-indented paragraphs, yield the paragraph
records of the text part, then — when the table part is non-empty — one
`GPOTABLE` record carrying the current header and legal state. -/
def processComponents (en : Bool) : HtmlState → List (String × String) →
    List HtmlRecord
  | _, [] => []
  | st, comp :: rest =>
    let pc := processChunks en st (chunks (markP comp.1.data))
    (pc.2 ++
      (if comp.2 == "" then []
       else [⟨some "GPOTABLE", comp.2, none, [], pc.1.header, pc.1.legal, none⟩])) ++
    processComponents en pc.1 rest

/-- `extract_html_paragraphs` (`src/preprocessing/parsing.py` lines 417-468),
as the list of yielded records. -/
def extract_html_paragraphs (text : String) (extract_numbering : Bool) :
    List HtmlRecord :=
  processComponents extract_numbering ⟨none, false, false⟩ (split_tables text)

theorem tableSpansF_nil (f i : Nat) : tableSpansF f i [] = [] := by
  cases f <;> rfl

theorem tableSpansF_succ_none (f i : Nat) (c : Char) (l : List Char)
    (h : matchTableAt (c :: l) = none) :
    tableSpansF (f + 1) i (c :: l) = tableSpansF f (i + 1) l := by
  simp only [tableSpansF, h]

theorem tableSpansF_succ_some (f i n : Nat) (c : Char) (l : List Char)
    (h : matchTableAt (c :: l) = some n) :
    tableSpansF (f + 1) i (c :: l) =
      (i, i + n) :: tableSpansF f (i + n) ((c :: l).drop n) := by
  simp only [tableSpansF, h]

theorem matchTableAt_none_of_second (c : Char) (rest : List Char)
    (h : rest.head? ≠ some '-') : matchTableAt (c :: rest) = none := by
  cases rest with
  | nil => rfl
  | cons d t =>
    have hd : ¬ d = '-' := by
      intro he
      exact h (by rw [he]; rfl)
    unfold matchTableAt
    split
    · rfl
    · split
      · rename_i heq
        exact absurd (List.cons.inj (List.cons.inj heq).2).1 hd
      · rfl

theorem matchTableAt_block (c0 : Char) (blk B : List Char)
    (hall : ∀ c ∈ blk, tableChar c = true)
    (hhead : blk.head? = some '-')
    (hcnt : 2 ≤ blk.count '-')
    (hB : B.takeWhile tableChar = []) :
    matchTableAt (c0 :: (blk ++ B)) = some (1 + blk.length) := by
  cases blk with
  | nil => exact absurd hhead (by simp)
  | cons b bt =>
    have hb : b = '-' := by simpa using hhead
    subst hb
    have htake : (('-' :: bt) ++ B).takeWhile tableChar = '-' :: bt := by
      rw [takeWhile_all_append _ _ _ hall, hB, List.append_nil]
    simp only [List.cons_append] at htake ⊢
    have step : matchTableAt (c0 :: '-' :: (bt ++ B)) =
        if 2 ≤ (('-' :: (bt ++ B)).takeWhile tableChar).count '-' then
          some (1 + (('-' :: (bt ++ B)).takeWhile tableChar).length)
        else none := rfl
    rw [step, htake, if_pos (by simpa using hcnt)]

theorem tableSpansF_skip (A : List Char) :
    ∀ (rest : List Char) (f i : Nat),
      (∀ c ∈ A, ¬ c = '-') → rest.head? ≠ some '-' →
      A.length + rest.length ≤ f →
      tableSpansF f i (A ++ rest) =
        tableSpansF (f - A.length) (i + A.length) rest := by
  induction A with
  | nil => intro rest f i _ _ _; simp
  | cons a A ih =>
    intro rest f i hA hr hf
    obtain ⟨f', rfl⟩ : ∃ f', f = f' + 1 := by
      refine ⟨f - 1, ?_⟩
      simp only [List.length_cons] at hf
      omega
    have hsec : (A ++ rest).head? ≠ some '-' := by
      cases A with
      | nil => simpa using hr
      | cons a2 A2 =>
        have : ¬ a2 = '-' := hA a2 (by simp)
        simpa using this
    have hnone := matchTableAt_none_of_second a (A ++ rest) hsec
    rw [List.cons_append, tableSpansF_succ_none f' i a (A ++ rest) hnone]
    rw [ih rest f' (i + 1) (fun c hc => hA c (by simp [hc])) hr
      (by simp only [List.length_cons] at hf; omega)]
    simp only [List.length_cons, Nat.succ_sub_succ]
    congr 1
    omega

/-- The table-region scan over a signature string made of a dash-free prefix
`A`, any non-dash code `c0`, a block of signature codes with at least two
dashes starting with one, and a dash-free suffix `B` that does not start with
a signature character: exactly one region is found, spanning `c0` and the
block. -/
theorem tableSpans_block (A : List Char) (c0 : Char) (blk B : List Char)
    (hA : ∀ c ∈ A, ¬ c = '-') (hc0 : ¬ c0 = '-')
    (hall : ∀ c ∈ blk, tableChar c = true)
    (hhead : blk.head? = some '-') (hcnt : 2 ≤ blk.count '-')
    (hB : B.takeWhile tableChar = []) (hBd : ∀ c ∈ B, ¬ c = '-') :
    tableSpans (A ++ c0 :: (blk ++ B)) =
      [(A.length, A.length + (1 + blk.length))] := by
  unfold tableSpans
  rw [tableSpansF_skip A (c0 :: (blk ++ B)) _ 0 hA (by simpa using hc0)
    (by simp)]
  have hfuel : (A ++ c0 :: (blk ++ B)).length - A.length =
      (blk.length + B.length) + 1 := by
    simp only [List.length_append, List.length_cons]
    omega
  rw [hfuel]
  rw [tableSpansF_succ_some _ _ _ _ _ (matchTableAt_block c0 blk B hall hhead hcnt hB)]
  have hdrop : (c0 :: (blk ++ B)).drop (1 + blk.length) = B := by
    rw [show 1 + blk.length = blk.length + 1 by omega]
    rw [List.drop_succ_cons, List.drop_left]
  rw [hdrop]
  have hskip := tableSpansF_skip B [] (blk.length + B.length)
    (0 + A.length + (1 + blk.length)) hBd (by simp) (by simp)
  rw [List.append_nil] at hskip
  rw [hskip, tableSpansF_nil]
  simp

/-- One unfolding of `pySplitNl` on a non-newline head. -/
theorem pySplitNl_cons (c : Char) (t : List Char) (hc : ¬ c = '\n') :
    pySplitNl (c :: t) =
      match pySplitNl t with
      | p :: ps => (c :: p) :: ps
      | [] => [[c]] := by
  rw [pySplitNl.eq_def]
  split
  · rename_i heq
    exact absurd heq (by simp)
  · rename_i heq
    exact absurd (List.cons.inj heq).1 hc
  · rename_i c' t' hne heq
    obtain ⟨h1, h2⟩ := List.cons.inj heq
    subst h1; subst h2
    rfl

/-- `str.split('\n')` on a newline-free string. -/
theorem pySplitNl_no_nl (l : List Char) (h : '\n' ∉ l) :
    pySplitNl l = [l] := by
  induction l with
  | nil => rfl
  | cons c t ih =>
    have hc : ¬ c = '\n' := fun he => h (by rw [he]; exact List.mem_cons_self _ _)
    have ht : '\n' ∉ t := fun he => h (List.mem_cons_of_mem _ he)
    rw [pySplitNl_cons c t hc, ih ht]

/-- `str.split('\n')` distributes over the first newline after a newline-free
prefix. -/
theorem pySplitNl_append_nl (l m : List Char) (hl : '\n' ∉ l) :
    pySplitNl (l ++ '\n' :: m) = l :: pySplitNl m := by
  induction l with
  | nil => rfl
  | cons c t ih =>
    have hc : ¬ c = '\n' := fun he => hl (by rw [he]; exact List.mem_cons_self _ _)
    have ht : '\n' ∉ t := fun he => hl (List.mem_cons_of_mem _ he)
    rw [List.cons_append, pySplitNl_cons c _ hc, ih ht]

/-- Splitting on `'\n'` inverts `'\n'.join(...)` when no line contains a
newline. -/
theorem pySplitNl_joinNl (ls : List (List Char)) (h0 : ls ≠ [])
    (h : ∀ l ∈ ls, '\n' ∉ l) :
    pySplitNl (joinNl ls).data = ls := by
  induction ls with
  | nil => exact absurd rfl h0
  | cons l rest ih =>
    cases rest with
    | nil =>
      show pySplitNl (['\n'].intercalate [l]) = [l]
      rw [show ['\n'].intercalate [l] = l by simp [List.intercalate]]
      exact pySplitNl_no_nl l (h l (by simp))
    | cons l2 t =>
      show pySplitNl (['\n'].intercalate (l :: l2 :: t)) = l :: l2 :: t
      rw [show ['\n'].intercalate (l :: l2 :: t) =
        l ++ '\n' :: ['\n'].intercalate (l2 :: t) by
          simp [List.intercalate, List.intersperse]]
      rw [pySplitNl_append_nl l _ (h l (by simp))]
      have := ih (by simp) (fun x hx => h x (by simp [hx]))
      rw [show pySplitNl (joinNl (l2 :: t)).data =
        pySplitNl (['\n'].intercalate (l2 :: t)) from rfl] at this
      rw [this]

/-- `split_tables` on lines made of a dash-free prefix, one further non-dash
line, a block of signature-coded lines opening with a dash rule and holding
at least two, and a dash-free suffix whose first line is not
signature-coded: one table component holding that extra line plus the block
(the region's leading wildcard consumes the line before the first rule), with
the leftover suffix component when the suffix is non-empty. -/
theorem split_tables_block (pre : List (List Char)) (l0 : List Char)
    (blk suf : List (List Char))
    (hnl : ∀ l ∈ pre ++ l0 :: (blk ++ suf), '\n' ∉ l)
    (hpre : ∀ l ∈ pre, ¬ line_code l = '-')
    (hl0 : ¬ line_code l0 = '-')
    (hall : ∀ l ∈ blk, tableChar (line_code l) = true)
    (hhead : (blk.map line_code).head? = some '-')
    (hcnt : 2 ≤ (blk.map line_code).count '-')
    (hsufhead : (suf.map line_code).takeWhile tableChar = [])
    (hsufd : ∀ l ∈ suf, ¬ line_code l = '-') :
    split_tables (joinNl (pre ++ l0 :: (blk ++ suf))) =
      (joinNl pre, joinNl (l0 :: blk)) ::
        (if suf.length = 0 then [] else [(joinNl suf, "")]) := by
  have hlines : pySplitNl (joinNl (pre ++ l0 :: (blk ++ suf))).data =
      pre ++ l0 :: (blk ++ suf) :=
    pySplitNl_joinNl _ (by simp) hnl
  have hcodes : (pre ++ l0 :: (blk ++ suf)).map line_code =
      pre.map line_code ++ line_code l0 ::
        (blk.map line_code ++ suf.map line_code) := by
    simp
  have hspans : tableSpans ((pre ++ l0 :: (blk ++ suf)).map line_code) =
      [(pre.length, pre.length + (1 + blk.length))] := by
    rw [hcodes]
    rw [tableSpans_block (pre.map line_code) (line_code l0)
      (blk.map line_code) (suf.map line_code)
      (by intro c hc; obtain ⟨l, hl, rfl⟩ := List.mem_map.mp hc; exact hpre l hl)
      hl0
      (by intro c hc; obtain ⟨l, hl, rfl⟩ := List.mem_map.mp hc; exact hall l hl)
      hhead hcnt hsufhead
      (by intro c hc; obtain ⟨l, hl, rfl⟩ := List.mem_map.mp hc; exact hsufd l hl)]
    simp
  have htake : (pre ++ l0 :: (blk ++ suf)).take pre.length = pre :=
    List.take_left pre _
  have hdroptake : ((pre ++ l0 :: (blk ++ suf)).drop pre.length).take
      (pre.length + (1 + blk.length) - pre.length) = l0 :: blk := by
    rw [List.drop_left pre _]
    rw [show pre.length + (1 + blk.length) - pre.length = blk.length + 1 by omega]
    rw [List.take_succ_cons, List.take_left blk suf]
  have hdropend : (pre ++ l0 :: (blk ++ suf)).drop
      (pre.length + (1 + blk.length)) = suf := by
    rw [show pre ++ l0 :: (blk ++ suf) = (pre ++ l0 :: blk) ++ suf by simp]
    rw [show pre.length + (1 + blk.length) = (pre ++ l0 :: blk).length by
      simp; omega]
    exact List.drop_left _ _
  have hlen : (pre ++ l0 :: (blk ++ suf)).length =
      pre.length + (1 + blk.length) + suf.length := by
    simp
    omega
  unfold split_tables
  rw [hlines]
  simp only [hspans, List.map_cons, List.map_nil, List.getLast?_singleton]
  rw [htake, hdroptake, hdropend, hlen]
  by_cases hs : suf.length = 0
  · rw [if_neg (by omega), if_pos hs]
    rfl
  · rw [if_pos (by omega), if_neg hs]
    rfl

/-- `tag_html_paragraph` never yields the table tag. -/
theorem tag_html_paragraph_ne_gpotable (s : String) :
    ¬ tag_html_paragraph s = some "GPOTABLE" := by
  unfold tag_html_paragraph
  repeat' split
  all_goals simp

/-- Every record yielded for a paragraph chunk is tagged by
`tag_html_paragraph`. -/
theorem processChunk_tag (en : Bool) (st : HtmlState) (s : String)
    (r : HtmlRecord) (hr : r ∈ (processChunk en st s).2) :
    r.tag = tag_html_paragraph s := by
  unfold processChunk at hr
  by_cases h1 : isDashedChunk s = true
  · rw [if_pos h1] at hr
    simp at hr
  · rw [if_neg h1] at hr
    by_cases h2 : (dropDashedLines s.data).isEmpty = true
    · rw [if_pos h2] at hr
      simp at hr
    · rw [if_neg h2] at hr
      simp only [List.mem_singleton] at hr
      rw [hr]

/-- No record of the paragraph phase carries the `GPOTABLE` tag. -/
theorem processChunks_no_gpotable (en : Bool) (cs : List (List Char)) :
    ∀ (st : HtmlState) (r : HtmlRecord),
      r ∈ (processChunks en st cs).2 → ¬ r.tag = some "GPOTABLE" := by
  induction cs with
  | nil =>
    intro st r hr
    simp [processChunks] at hr
  | cons c t ih =>
    intro st r hr
    have hr' : r ∈ (processChunk en st ⟨c⟩).2 ∨
        r ∈ (processChunks en (processChunk en st ⟨c⟩).1 t).2 := by
      simpa [processChunks] using hr
    cases hr' with
    | inl h =>
      rw [processChunk_tag en st ⟨c⟩ r h]
      exact tag_html_paragraph_ne_gpotable _
    | inr h => exact ih _ r h

/-- The texts of the `GPOTABLE` records of `extract_html_paragraphs` are
exactly the non-empty table components of `split_tables`, in order. -/
theorem processComponents_gpotable (en : Bool)
    (comps : List (String × String)) :
    ∀ st : HtmlState,
      ((processComponents en st comps).filter
        (fun r => r.tag == some "GPOTABLE")).map (fun r => r.text) =
      (comps.filter (fun c => !(c.2 == ""))).map (fun c => c.2) := by
  induction comps with
  | nil => intro st; rfl
  | cons comp t ih =>
    intro st
    have h1 : ((processChunks en st (chunks (markP comp.1.data))).2.filter
        (fun r => r.tag == some "GPOTABLE")) = [] := by
      rw [List.filter_eq_nil_iff]
      intro r hr
      have := processChunks_no_gpotable en (chunks (markP comp.1.data)) st r hr
      simpa using this
    have hstep : processComponents en st (comp :: t) =
        ((processChunks en st (chunks (markP comp.1.data))).2 ++
          (if comp.2 == "" then []
           else [(⟨some "GPOTABLE", comp.2, none, [],
             (processChunks en st (chunks (markP comp.1.data))).1.header,
             (processChunks en st (chunks (markP comp.1.data))).1.legal,
             none⟩ : HtmlRecord)])) ++
        processComponents en
          (processChunks en st (chunks (markP comp.1.data))).1 t := rfl
    rw [hstep]
    rw [List.filter_append, List.filter_append, h1, List.nil_append]
    rw [List.map_append]
    rw [ih ((processChunks en st (chunks (markP comp.1.data))).1)]
    by_cases hc : comp.2 = ""
    · have hc' : (comp.2 == "") = true := by simpa using hc
      rw [if_pos hc']
      simp [List.filter_cons, hc']
    · have hc' : (comp.2 == "") = false := by simpa using hc
      rw [if_neg (by simp [hc'])]
      simp [List.filter_cons, hc']

/-- Joining at least two lines is never the empty string (the separating
newline survives). -/
theorem joinNl_cons_cons_ne (l0 b : List Char) (bt : List (List Char)) :
    (joinNl (l0 :: b :: bt) == "") = false := by
  have hd : (joinNl (l0 :: b :: bt)).data =
      l0 ++ '\n' :: ['\n'].intercalate (b :: bt) := by
    show ['\n'].intercalate (l0 :: b :: bt) = _
    simp [List.intercalate, List.intersperse]
  rw [beq_eq_false_iff_ne]
  intro he
  have hdata : (joinNl (l0 :: b :: bt)).data = ("" : String).data := by rw [he]
  rw [hd] at hdata
  simp at hdata

/-- One step of the component loop, spelled out (holds by unfolding). -/
theorem processComponents_cons (en : Bool) (st : HtmlState)
    (comp : String × String) (rest : List (String × String)) :
    processComponents en st (comp :: rest) =
      ((processChunks en st (chunks (markP comp.1.data))).2 ++
        (if comp.2 == "" then []
         else [(⟨some "GPOTABLE", comp.2, none, [],
           (processChunks en st (chunks (markP comp.1.data))).1.header,
           (processChunks en st (chunks (markP comp.1.data))).1.legal,
           none⟩ : HtmlRecord)])) ++
      processComponents en
        (processChunks en st (chunks (markP comp.1.data))).1 rest := rfl

theorem processComponents_nil (en : Bool) (st : HtmlState) :
    processComponents en st [] = [] := rfl

/-- Paragraph-phase records all vanish under the `GPOTABLE` filter. -/
theorem processChunks_filter_gpotable (en : Bool) (cs : List (List Char))
    (st : HtmlState) :
    (processChunks en st cs).2.filter (fun r => r.tag == some "GPOTABLE") =
      [] := by
  rw [List.filter_eq_nil_iff]
  intro r hr
  simpa using processChunks_no_gpotable en cs st r hr

/-- Paragraph-phase records all survive the non-`GPOTABLE` filter. -/
theorem processChunks_filter_not_gpotable (en : Bool) (cs : List (List Char))
    (st : HtmlState) :
    (processChunks en st cs).2.filter (fun r => !(r.tag == some "GPOTABLE")) =
      (processChunks en st cs).2 := by
  rw [List.filter_eq_self]
  intro r hr
  have h := processChunks_no_gpotable en cs st r hr
  have h2 : (r.tag == some "GPOTABLE") = false := by
    simpa [beq_eq_false_iff_ne] using h
  simp [h2]

/-- Claim C10: a text block of at least 3 lines bounded by dash-rule lines
whose lines all carry table-signature codes (`{'-',' ','c','.'}`), sitting
after at least one non-dash-rule line and before a suffix that opens with a
non-signature, non-dash-rule line (and contains no dash-rule line), produces
exactly one `GPOTABLE` record whose text is the *preceding line together
with the block* (the region regex `r'.(-[ c\.]*){2,}'` spends its leading
wildcard on the line before the first rule), and the block is not split into
paragraph records.  Conjunct 1 pins the whole record list: everything except
the one `GPOTABLE` record is the paragraph phase run on the text before the
preceding line and on the suffix alone, so no line of `l0 :: blk` is input
to any paragraph record.  Conjunct 2 is the single-table-record text;
conjunct 3 restates no-leakage as a filter: the non-`GPOTABLE` records are
exactly the paragraph records of the surrounding text.  This corrects the
claim: a preceding line is required (a block at the very start of the text
is not detected, see the counterexample) and the emitted record carries one
extra leading line. -/
theorem C10_table_block_record (en : Bool) (pre : List (List Char))
    (l0 : List Char) (blk suf : List (List Char))
    (hnl : ∀ l ∈ pre ++ l0 :: (blk ++ suf), '\n' ∉ l)
    (h3 : 3 ≤ blk.length)
    (hhead : (blk.map line_code).head? = some '-')
    (hlast : (blk.map line_code).getLast? = some '-')
    (hall : ∀ l ∈ blk, tableChar (line_code l) = true)
    (hpre : ∀ l ∈ pre, ¬ line_code l = '-')
    (hl0 : ¬ line_code l0 = '-')
    (hsufd : ∀ l ∈ suf, ¬ line_code l = '-')
    (hsufhead : (suf.map line_code).takeWhile tableChar = []) :
    (extract_html_paragraphs (joinNl (pre ++ l0 :: (blk ++ suf))) en =
      (processChunks en ⟨none, false, false⟩
          (chunks (markP (joinNl pre).data))).2 ++
        ((⟨some "GPOTABLE", joinNl (l0 :: blk), none, [],
          (processChunks en ⟨none, false, false⟩
            (chunks (markP (joinNl pre).data))).1.header,
          (processChunks en ⟨none, false, false⟩
            (chunks (markP (joinNl pre).data))).1.legal,
          none⟩ : HtmlRecord) ::
          (if suf.length = 0 then []
           else (processChunks en
             (processChunks en ⟨none, false, false⟩
               (chunks (markP (joinNl pre).data))).1
             (chunks (markP (joinNl suf).data))).2))) ∧
    ((extract_html_paragraphs (joinNl (pre ++ l0 :: (blk ++ suf))) en).filter
        (fun r => r.tag == some "GPOTABLE")).map (fun r => r.text) =
      [joinNl (l0 :: blk)] ∧
    (extract_html_paragraphs (joinNl (pre ++ l0 :: (blk ++ suf))) en).filter
        (fun r => !(r.tag == some "GPOTABLE")) =
      (processChunks en ⟨none, false, false⟩
          (chunks (markP (joinNl pre).data))).2 ++
        (if suf.length = 0 then []
         else (processChunks en
           (processChunks en ⟨none, false, false⟩
             (chunks (markP (joinNl pre).data))).1
           (chunks (markP (joinNl suf).data))).2) := by
  obtain ⟨b, bt, rfl⟩ : ∃ b bt, blk = b :: bt := by
    cases blk with
    | nil => simp at h3
    | cons b bt => exact ⟨b, bt, rfl⟩
  obtain ⟨b2, bt2, rfl⟩ : ∃ b2 bt2, bt = b2 :: bt2 := by
    cases bt with
    | nil => simp at h3
    | cons b2 bt2 => exact ⟨b2, bt2, rfl⟩
  have hcnt : 2 ≤ ((b :: b2 :: bt2).map line_code).count '-' := by
    have hb : line_code b = '-' := by simpa using hhead
    have hmem : '-' ∈ (b2 :: bt2).map line_code :=
      List.mem_of_mem_getLast?
        (show ((b2 :: bt2).map line_code).getLast? = some '-' from hlast)
    have hpos : 0 < ((b2 :: bt2).map line_code).count '-' :=
      List.count_pos_iff.mpr hmem
    rw [List.map_cons, hb, List.count_cons_self]
    omega
  have hsplit := split_tables_block pre l0 (b :: b2 :: bt2) suf hnl hpre hl0
    hall hhead hcnt hsufhead hsufd
  have hne := joinNl_cons_cons_ne l0 b (b2 :: bt2)
  have hfull : extract_html_paragraphs
      (joinNl (pre ++ l0 :: ((b :: b2 :: bt2) ++ suf))) en =
      (processChunks en ⟨none, false, false⟩
          (chunks (markP (joinNl pre).data))).2 ++
        ((⟨some "GPOTABLE", joinNl (l0 :: b :: b2 :: bt2), none, [],
          (processChunks en ⟨none, false, false⟩
            (chunks (markP (joinNl pre).data))).1.header,
          (processChunks en ⟨none, false, false⟩
            (chunks (markP (joinNl pre).data))).1.legal,
          none⟩ : HtmlRecord) ::
          (if suf.length = 0 then []
           else (processChunks en
             (processChunks en ⟨none, false, false⟩
               (chunks (markP (joinNl pre).data))).1
             (chunks (markP (joinNl suf).data))).2)) := by
    unfold extract_html_paragraphs
    rw [hsplit]
    by_cases hs : suf.length = 0
    · simp only [if_pos hs]
      rw [processComponents_cons, processComponents_nil]
      simp [hne]
    · simp only [if_neg hs]
      rw [processComponents_cons, processComponents_cons,
        processComponents_nil]
      simp [hne]
  refine ⟨hfull, ?_, ?_⟩
  · unfold extract_html_paragraphs
    rw [hsplit, processComponents_gpotable]
    by_cases hs : suf.length = 0
    · rw [if_pos hs]
      simp [List.filter_cons, hne]
    · rw [if_neg hs]
      simp [List.filter_cons, hne]
  · rw [hfull, List.filter_append, processChunks_filter_not_gpotable]
    congr 1
    by_cases hs : suf.length = 0
    · simp only [if_pos hs]
      simp [List.filter_cons]
    · simp only [if_neg hs]
      simp [List.filter_cons, processChunks_filter_not_gpotable en _ _]

/-- Claim C10, counterexample: the three-line text
`"-----\n     1  2\n-----"` is itself a block of 3 lines bounded by
dash-rules with a tabular interior (signature `"-c-"`), but at the very
start of the text there is no line for the region regex's leading wildcard
to consume, so no table region is found: `extract_html_paragraphs` yields
no `GPOTABLE` record at all and instead emits the whole block as one
`EXTRACT` paragraph record. -/
theorem C10_table_at_start_not_detected :
    (pySplitNl ("-----\n     1  2\n-----" : String).data).map line_code =
      ['-', 'c', '-'] ∧
    (extract_html_paragraphs "-----\n     1  2\n-----" true).filter
      (fun r => r.tag == some "GPOTABLE") = [] ∧
    extract_html_paragraphs "-----\n     1  2\n-----" true =
      [⟨some "EXTRACT", "-----\n     1  2\n-----", none, [], none, false,
        none⟩] :=
  ⟨by decide, by decide, by decide⟩

/-- Claim C10, witness: a heading line, then a three-line table block, after
an introductory paragraph.  The full record list is one `HD` paragraph
record for the intro and one `GPOTABLE` record whose text is the heading
line plus the block; the non-table records are exactly the intro's paragraph
record, so nothing of the block leaks into paragraph records.  All sides are
stated as concrete values, definitionally equal to the instantiated
conclusion of the theorem. -/
theorem C10_table_block_record_witness :
    (extract_html_paragraphs "Intro\nHeading\n-----\n     1  2\n-----" true =
      [⟨some "HD", "Intro", none, [], some "Intro", false, none⟩,
       ⟨some "GPOTABLE", "Heading\n-----\n     1  2\n-----", none, [],
         some "Intro", false, none⟩]) ∧
    ((extract_html_paragraphs "Intro\nHeading\n-----\n     1  2\n-----"
        true).filter
        (fun r => r.tag == some "GPOTABLE")).map (fun r => r.text) =
      ["Heading\n-----\n     1  2\n-----"] ∧
    (extract_html_paragraphs "Intro\nHeading\n-----\n     1  2\n-----"
        true).filter (fun r => !(r.tag == some "GPOTABLE")) =
      [⟨some "HD", "Intro", none, [], some "Intro", false, none⟩] :=
  C10_table_block_record true [("Intro").data] ("Heading").data
    [("-----").data, ("     1  2").data, ("-----").data] []
    (by decide) (by decide) (by decide) (by decide) (by decide) (by decide)
    (by decide) (by decide) (by decide)

end Frdocs
